import Mathlib

/-!
Verification of the marv1 ingestion and retrieval pipeline.

This file gives a shallow embedding, in Lean, of the core of the
repository: the text chunker (`api/src/lib/db.ts`: `buildLineOffsets`,
`locateLine`, `chunkText`), the embedding-response normalizers
(`normalizeEmbeddings` in the ingest module, `normalizeQuestionEmbedding`
in the chat route), the vector-store adapter
(`api/src/lib/vectorize.ts`: `partitionForVisibility`,
`filterFromNamespace`, `buildMatch`, `upsertChunkVector`,
`deleteChunkVectors`, `queryNamespace`), the chat handler's merge-and-rank
logic and control flow (`handleChat`, `parseTopK`, `normalizeChatResult`,
`extractChatResultFromCandidates`), and the ingestion orchestrator
(`ingestFileById`).

Conventions used throughout:
- JavaScript strings are modelled as `List Char`; indices are `Nat`.
- JSON-decoded provider values are modelled by the inductive `JSVal`
  (numbers, strings, booleans, arrays, objects).  JSON cannot encode
  `undefined` or `null`, so the universe omits them; a missing object
  field surfaces as `Option.none` from `getField`, matching the
  `undefined` result of a JavaScript property access.
- Scores are rationals (`ℚ`); the source uses doubles but only ever
  compares scores, so any linearly ordered field is a faithful carrier.
- The external Cloudflare Vectorize index is not part of the repository;
  its two API generations are modelled from the specification (section
  4.3) as an explicit namespace-keyed store (generation A or V1) and a
  global store with metadata filtering (generation B or V2).  Similarity
  ranking inside the index is abstracted: the modelled index returns the
  in-scope vectors in store order truncated to `topK`, which is
  sufficient for every membership and isolation claim proved here.
-/

/-! ## Chunker (`api/src/lib/db.ts`, chunking section) -/

/-- `Number.MAX_SAFE_INTEGER` as used by `locateLine`. -/
def maxSafeInteger : Nat := 2 ^ 53 - 1

/-- A produced chunk, mirroring the `TextChunk` interface. -/
structure TextChunk where
  content : List Char
  startLine : Nat
  endLine : Nat
  index : Nat
  deriving DecidableEq, Repr

/-- Offsets of the line starts strictly after position `i`: the loop body of
`buildLineOffsets`, pushing `i + 1` for every newline character. -/
def newlineOffsets : List Char → Nat → List Nat
  | [], _ => []
  | c :: rest, i =>
    if c = '\n' then (i + 1) :: newlineOffsets rest (i + 1)
    else newlineOffsets rest (i + 1)

/-- `buildLineOffsets`: offset `0` counts as the start of line 1, then one
offset per newline. -/
def buildLineOffsets (source : List Char) : List Nat :=
  0 :: newlineOffsets source 0

/-- The binary-search loop of `locateLine`.  `low` and `high` are signed as
in JavaScript (`high` may reach `-1`).  Fuel bounds the iteration count;
running out of fuel returns the same value as falling out of the loop. -/
def locateLineGo (offsets : List Nat) (charIndex : Nat) : Nat → Int → Int → Nat
  | 0, _, _ => offsets.length
  | fuel + 1, low, high =>
    if low ≤ high then
      let mid : Int := (low + high) / 2
      let start := offsets.getD mid.toNat 0
      let nextStart : Nat :=
        if mid.toNat + 1 < offsets.length then offsets.getD (mid.toNat + 1) 0
        else maxSafeInteger
      if charIndex < start then locateLineGo offsets charIndex fuel low (mid - 1)
      else if nextStart ≤ charIndex then locateLineGo offsets charIndex fuel (mid + 1) high
      else mid.toNat + 1
    else offsets.length

/-- `locateLine(offsets, charIndex)`: 1-based line number of the character at
`charIndex`.  The window shrinks strictly every iteration, so
`offsets.length + 1` units of fuel always suffice. -/
def locateLine (offsets : List Nat) (charIndex : Nat) : Nat :=
  locateLineGo offsets charIndex (offsets.length + 1) 0 ((offsets.length : Int) - 1)

/-- The `for` loop of `chunkText`, one fuel unit per iteration.  `none`
means the fuel ran out, i.e. the loop had not finished after `fuel`
iterations.  `position = Math.max(0, end - overlap)` is truncated `Nat`
subtraction, which performs the same clamping at zero. -/
def chunkTextGo (source : List Char) (chunkSize overlap : Nat) (offsets : List Nat) :
    Nat → Nat → Nat → Option (List TextChunk)
  | 0, _, _ => none
  | fuel + 1, position, index =>
    if position < source.length then
      let e := min source.length (position + chunkSize)
      let content := (source.drop position).take (e - position)
      let startLine := locateLine offsets position
      let lastCharIndex := if position < e then e - 1 else position
      let endLine := locateLine offsets lastCharIndex
      let chunk : TextChunk := ⟨content, startLine, endLine, index⟩
      if e = source.length then some [chunk]
      else
        match chunkTextGo source chunkSize overlap offsets fuel (e - overlap) (index + 1) with
        | some rest => some (chunk :: rest)
        | none => none
    else some []

/-- `chunkText` run with `source.length + 1` units of fuel (enough whenever
the loop terminates at all, since every completed iteration either finishes
or strictly advances `position` when it does make progress); `none` reports
that the loop would never terminate. -/
def chunkTextRun (source : List Char) (chunkSize overlap : Nat) : Option (List TextChunk) :=
  chunkTextGo source chunkSize overlap (buildLineOffsets source) (source.length + 1) 0 0

/-- The `chunkText` loop terminates on the given input: some amount of fuel
completes it. -/
def chunkTerminates (source : List Char) (chunkSize overlap : Nat) : Prop :=
  ∃ fuel, (chunkTextGo source chunkSize overlap (buildLineOffsets source) fuel 0 0).isSome

/-- Number of line-start offsets at or before character index `c`; this is
the value `locateLine` computes on a sorted offset table. -/
def lineRank (offsets : List Nat) (c : Nat) : Nat :=
  offsets.countP (fun o => decide (o ≤ c))

/-- Reassemble chunk contents, removing the first `overlap` characters of
every chunk except the first (the reconstruction described in the
specification's testable properties). -/
def reconcat (overlap : Nat) : List TextChunk → List Char
  | [] => []
  | c :: rest => c.content ++ (rest.map (fun x => x.content.drop overlap)).flatten

/-! ## Provider values

A JSON universe for values crossing the provider boundaries.  JSON cannot
encode `undefined` or `null`, so the universe omits them; a missing object
field surfaces as `none` from `getField`, which matches the `undefined`
result of a JavaScript property access on any non-nullish receiver. -/

inductive JSVal where
  | num (q : ℚ)
  | str (s : String)
  | bool (b : Bool)
  | arr (items : List JSVal)
  | obj (fields : List (String × JSVal))

/-- JavaScript property access `v[key]`; `none` models `undefined`. -/
def getField : JSVal → String → Option JSVal
  | .obj fields, key => (fields.find? (fun p => decide (p.1 = key))).map (fun p => p.2)
  | _, _ => none

/-- JavaScript truthiness on this universe. -/
def truthy : JSVal → Bool
  | .num q => decide ¬(q = 0)
  | .str s => decide ¬(s = "")
  | .bool b => b
  | .arr _ => true
  | .obj _ => true

/-- `typeof v === 'object'` (arrays included, as in JavaScript). -/
def isObjectType : JSVal → Bool
  | .arr _ => true
  | .obj _ => true
  | _ => false

/-- `Array.isArray`. -/
def isArr : JSVal → Bool
  | .arr _ => true
  | _ => false

/-- `typeof v === 'number'`. -/
def isNum : JSVal → Bool
  | .num _ => true
  | _ => false

/-- Extract the element list of an array value. -/
def arrOf : Option JSVal → Option (List JSVal)
  | some (.arr xs) => some xs
  | _ => none

/-- The first check of both normalizers: `maybe && Array.isArray(maybe.data)`. -/
def dataArray (v : JSVal) : Option (List JSVal) :=
  if truthy v then arrOf (getField v ("data")) else none

/-- The last check of `normalizeEmbeddings`: `maybe && Array.isArray(maybe.vectors)`. -/
def vectorsArray (v : JSVal) : Option (List JSVal) :=
  if truthy v then arrOf (getField v ("vectors")) else none

/-! ## Embedding-response normalization (`normalizeEmbeddings`, ingest module) -/

/-- Fourth branch of `normalizeEmbeddings`: the `vectors` wrapper, else the
explicit format error. -/
def vectorsFallback (maybe : JSVal) : Except String (List (Option JSVal)) :=
  match vectorsArray maybe with
  | some vs => .ok (vs.map some)
  | none => .error ("Embedding response not in a known format")

/-- `normalizeEmbeddings`: normalize a provider response to a vector list.
Each element of the result is the raw value found (`none` models an
`undefined` slot produced by `d.embedding` on a `data` element that lacks
the field, which the source forwards unchecked). -/
def normalizeEmbeddings (maybe : JSVal) : Except String (List (Option JSVal)) :=
  match dataArray maybe with
  | some ds => .ok (ds.map (fun d => getField d ("embedding")))
  | none =>
    match maybe with
    | .arr (x :: xs) =>
      if isArr x then .ok ((x :: xs).map some)
      else if isNum x then .ok [some (.arr (x :: xs))]
      else vectorsFallback maybe
    | _ => vectorsFallback maybe

/-- First branch of `normalizeQuestionEmbedding`:
`maybe && Array.isArray(maybe.data) && maybe.data[0]?.embedding`. -/
def questionDataEmbedding (maybe : JSVal) : Option JSVal :=
  match dataArray maybe with
  | some (d :: _) =>
    match getField d ("embedding") with
    | some e => if truthy e then some e else none
    | none => none
  | _ => none

/-- Fourth branch of `normalizeQuestionEmbedding`:
`maybe && Array.isArray(maybe.vectors) && Array.isArray(maybe.vectors[0])`,
else the explicit format error. -/
def questionVectorsFallback (maybe : JSVal) : Except String JSVal :=
  match vectorsArray maybe with
  | some (v :: _) =>
    if isArr v then .ok v else .error ("Question embedding not in a known format")
  | _ => .error ("Question embedding not in a known format")

/-- `normalizeQuestionEmbedding` (chat route): normalize a provider
response to a single vector value. -/
def normalizeQuestionEmbedding (maybe : JSVal) : Except String JSVal :=
  match questionDataEmbedding maybe with
  | some e => .ok e
  | none =>
    match maybe with
    | .arr (x :: xs) =>
      if isArr x then .ok x
      else if isNum x then .ok (.arr (x :: xs))
      else questionVectorsFallback maybe
    | _ => questionVectorsFallback maybe

/-- Shape 1 of the specification: an object carrying a `data` list. -/
def isDataShape (v : JSVal) : Bool :=
  (dataArray v).isSome

/-- Shape 2: a raw list whose first element is a list. -/
def isListOfListsShape : JSVal → Bool
  | .arr (x :: _) => isArr x
  | _ => false

/-- Shape 3: a raw flat list whose first element is a number. -/
def isFlatListShape : JSVal → Bool
  | .arr (x :: _) => isNum x
  | _ => false

/-- Shape 4: a wrapper object carrying a `vectors` list. -/
def isVectorsShape (v : JSVal) : Bool :=
  (vectorsArray v).isSome

/-! ## Vector store adapter (`api/src/lib/vectorize.ts`) -/

/-- File/folder visibility. -/
inductive Visibility where
  | public
  | «private»
  deriving DecidableEq, Repr

/-- Denormalized per-vector metadata (the `VectorMetadata` interface). -/
structure VectorMetadata where
  chunkId : String
  fileId : String
  folderId : String
  folderName : String
  fileName : String
  startLine : Nat
  endLine : Nat
  visibility : Visibility
  ownerId : String
  deriving DecidableEq, Repr

/-- One vector as stored by the index: id, raw values, optional metadata. -/
structure StoredVector where
  id : String
  values : Option JSVal
  metadata : Option VectorMetadata

/-- A raw match as returned by the index binding. -/
structure RawMatch where
  id : String
  metadata : Option VectorMetadata
  score : ℚ
  deriving DecidableEq, Repr

/-- A normalized match (the `VectorMatch` interface). -/
structure VectorMatch where
  chunkId : String
  fileId : String
  folderId : String
  folderName : String
  fileName : String
  startLine : Nat
  endLine : Nat
  visibility : Visibility
  ownerId : String
  score : ℚ
  deriving DecidableEq, Repr

/-- `partitionForVisibility`. -/
def partitionForVisibility (visibility : Visibility) (ownerId : String) : String :=
  if visibility = Visibility.public then ("public") else ("user:" ++ ownerId)

/-- `publicNamespace()`. -/
def publicNamespace : String := "public"

/-- `privateNamespace(ownerId)`. -/
def privateNamespace (ownerId : String) : String := "user:" ++ ownerId

/-- JavaScript `String.prototype.startsWith`, stated on character data. -/
def jsStartsWith (s pre : String) : Bool :=
  decide (s.data.take pre.data.length = pre.data)

/-- The metadata filter built by `filterFromNamespace`: `{visibility:'public'}`,
`{visibility:'private', ownerId}`, or the empty object. -/
inductive MetaFilter where
  | visPublic
  | visPrivate (ownerId : String)
  | empty
  deriving DecidableEq, Repr

/-- `filterFromNamespace`. -/
def filterFromNamespace (ns : String) : MetaFilter :=
  if ns = "public" then .visPublic
  else if jsStartsWith ns ("user:") then .visPrivate (ns.drop 5)
  else .empty

/-- Modelled from the spec: how the generation-B index applies a metadata
filter — a vector matches `{visibility, ownerId}` constraints through its
stored metadata, and a vector without metadata matches no non-empty
filter. -/
def matchesFilter (f : MetaFilter) (v : StoredVector) : Bool :=
  match f, v.metadata with
  | .empty, _ => true
  | .visPublic, some m => decide (m.visibility = Visibility.public)
  | .visPrivate owner, some m =>
    decide (m.visibility = Visibility.«private» ∧ m.ownerId = owner)
  | _, none => false

/-- The two vector-index API generations, with their stores.  The source
probes the binding for generation-B capabilities (`isV2`); in the model the
generation is the constructor, per the specification's guidance to resolve
it as an explicit enum. -/
inductive VectorStore where
  | v1 (entries : List (String × StoredVector))
  | v2 (entries : List StoredVector)

/-- Modelled from the spec: generation-A (namespace-keyed) index query.
Returns the vectors of the queried namespace, truncated to `topK`;
similarity ranking is abstracted as store order and scores are opaque. -/
def indexScanV1 (entries : List (String × StoredVector)) (ns : String) (topK : Nat) :
    List RawMatch :=
  ((entries.filter (fun p => decide (p.1 = ns))).map
    (fun p => RawMatch.mk p.2.id p.2.metadata 0)).take topK

/-- Modelled from the spec: generation-B (global) index query, optionally
constrained by a metadata filter, truncated to `topK`. -/
def indexScanV2 (entries : List StoredVector) (filter : Option MetaFilter) (topK : Nat) :
    List RawMatch :=
  let inScope : List StoredVector :=
    match filter with
    | some f => entries.filter (matchesFilter f)
    | none => entries
  (inScope.map (fun v => RawMatch.mk v.id v.metadata 0)).take topK

/-- `buildMatch` inside `queryNamespace`: normalize one raw match, dropping
matches whose resolved chunk id is falsy. -/
def buildMatch (ns : String) (raw : RawMatch) : Option VectorMatch :=
  match raw.metadata with
  | some m =>
    if m.chunkId = "" then none
    else some ⟨m.chunkId, m.fileId, m.folderId, m.folderName, m.fileName,
      m.startLine, m.endLine, m.visibility, m.ownerId, raw.score⟩
  | none =>
    if raw.id = "" then none
    else
      let vis : Visibility :=
        if ns = "public" then Visibility.public else Visibility.«private»
      let owner : String :=
        if vis = Visibility.«private» ∧ jsStartsWith ns ("user:") then ns.drop 5 else ""
      some ⟨raw.id, "", "", "", "", 0, 0, vis, owner, raw.score⟩

/-- Modelled from the spec: generation-A upsert replaces any vector with the
same id in the target namespace. -/
def v1upsert (entries : List (String × StoredVector)) (ns : String) (v : StoredVector) :
    List (String × StoredVector) :=
  entries.filter (fun p => decide ¬(p.1 = ns ∧ p.2.id = v.id)) ++ [(ns, v)]

/-- Modelled from the spec: generation-B upsert replaces any vector with the
same id in the global store. -/
def v2upsert (entries : List StoredVector) (v : StoredVector) : List StoredVector :=
  entries.filter (fun w => decide ¬(w.id = v.id)) ++ [v]

/-- `upsertChunkVector`: generation B upserts globally; generation A upserts
under the namespace derived from the metadata's visibility and owner. -/
def upsertChunkVector (store : VectorStore) (chunkId : String) (embedding : Option JSVal)
    (metadata : VectorMetadata) : VectorStore :=
  match store with
  | .v2 es => .v2 (v2upsert es ⟨chunkId, embedding, some metadata⟩)
  | .v1 es => .v1 (v1upsert es (partitionForVisibility metadata.visibility metadata.ownerId)
      ⟨chunkId, embedding, some metadata⟩)

/-- `deleteChunkVectors`: no-op on an empty id list; generation B removes by
id globally; generation A removes by id within the derived namespace. -/
def deleteChunkVectors (store : VectorStore) (chunkIds : List String)
    (visibility : Visibility) (ownerId : String) : VectorStore :=
  if chunkIds = [] then store
  else
    match store with
    | .v2 es => .v2 (es.filter (fun w => decide ¬(w.id ∈ chunkIds)))
    | .v1 es => .v1 (es.filter (fun p =>
        decide ¬(p.1 = partitionForVisibility visibility ownerId ∧ p.2.id ∈ chunkIds)))

/-- The generation-B filtered query path of `queryNamespace` (before the
no-filter fallback). -/
def v2FilteredMatches (es : List StoredVector) (ns : String) (topK : Nat) :
    List VectorMatch :=
  (indexScanV2 es (some (filterFromNamespace ns)) topK).filterMap (buildMatch ns)

/-- `queryNamespace`: generation A queries the namespace directly;
generation B queries with the metadata filter and, when that returns no
matches and the filter is non-empty, retries once without the filter. -/
def queryNamespace (store : VectorStore) (ns : String) (vector : JSVal) (topK : Nat) :
    List VectorMatch :=
  match store with
  | .v2 es =>
    let found := v2FilteredMatches es ns topK
    if found.isEmpty ∧ ¬(filterFromNamespace ns = MetaFilter.empty) then
      (indexScanV2 es none topK).filterMap (buildMatch ns)
    else found
  | .v1 es => (indexScanV1 es ns topK).filterMap (buildMatch ns)

/-! ## Merge and rank (`handleChat`, steps 3 and 4) -/

/-- `parseTopK`: positive parsed value or the default 8.  The model parses
decimal digit strings; `parseInt`'s laxer prefix parsing is irrelevant to
the claims, which concern the unconfigured default. -/
def parseTopK (value : Option String) : Nat :=
  match value with
  | none => 8
  | some s =>
    match s.toNat? with
    | some n => if 0 < n then n else 8
    | none => 8

/-- One `merged.set` step of the merge loop: insert an unseen chunk id at
the end (JavaScript `Map` preserves insertion order), or replace the stored
entry in place when the new score is strictly greater. -/
def mergeStep (acc : List (String × ℚ × VectorMatch)) (m : VectorMatch) :
    List (String × ℚ × VectorMatch) :=
  match acc.find? (fun p => decide (p.1 = m.chunkId)) with
  | none => acc ++ [(m.chunkId, m.score, m)]
  | some p =>
    if p.2.1 < m.score then
      acc.map (fun q => if q.1 = m.chunkId then (m.chunkId, m.score, m) else q)
    else acc

/-- The merge loop over `results.flat()`. -/
def mergedEntries (results : List (List VectorMatch)) : List (String × ℚ × VectorMatch) :=
  results.flatten.foldl mergeStep []

/-- Insert into a descending-by-score list, after strictly greater scores
and before equal-or-smaller ones; this is the stable placement mandated for
`Array.prototype.sort` with the comparator `(a, b) => b.score - a.score`. -/
def insertByScoreDesc (x : ℚ × VectorMatch) : List (ℚ × VectorMatch) → List (ℚ × VectorMatch)
  | [] => [x]
  | y :: rest => if x.1 < y.1 then y :: insertByScoreDesc x rest else x :: y :: rest

/-- Stable descending sort by score (insertion sort; any stable sort
computes the same list as the JavaScript engine's). -/
def sortByScoreDesc : List (ℚ × VectorMatch) → List (ℚ × VectorMatch)
  | [] => []
  | x :: rest => insertByScoreDesc x (sortByScoreDesc rest)

/-- Steps 3 and 4 of grounded mode: merge all namespace results by best
score per chunk id, sort descending by score, take the first `topK`. -/
def mergeTopMatches (results : List (List VectorMatch)) (topK : Nat) :
    List (ℚ × VectorMatch) :=
  (sortByScoreDesc ((mergedEntries results).map (fun p => p.2))).take topK

/-- JavaScript `\s` on the ASCII range used by the claims. -/
def isJsSpace (c : Char) : Bool :=
  decide (c = ' ' ∨ c = '\t' ∨ c = '\n' ∨ c = '\r' ∨ c = '\u000B' ∨ c = '\u000C')

/-- JavaScript `String.prototype.trim`, stated on character data: strip
leading and trailing whitespace. -/
def jsTrim (s : String) : String :=
  String.mk (((s.data.dropWhile isJsSpace).reverse.dropWhile isJsSpace).reverse)

/-! ## Chat-result parsing (`normalizeChatResult` and callers) -/

/-- A parsed structured answer.  Citations keep the raw objects that passed
the shape test, as the source does. -/
structure ChatResult where
  answer : String
  citations : List JSVal

/-- The citation-item filter of `normalizeChatResult`. -/
def isCitationShape (item : JSVal) : Bool :=
  isObjectType item &&
    (match getField item ("folder") with | some (.str _) => true | _ => false) &&
    (match getField item ("file") with | some (.str _) => true | _ => false) &&
    (match getField item ("lines") with | some (.arr _) => true | _ => false)

/-- `normalizeChatResult`. -/
def normalizeChatResult (candidate : JSVal) : Option ChatResult :=
  let answer : Option String :=
    match getField candidate ("answer") with
    | some (.str s) => some s
    | _ => none
  match answer, getField candidate ("citations") with
  | none, some (.arr items) => some ⟨"", items.filter isCitationShape⟩
  | none, _ => none
  | some a, some (.arr items) => some ⟨a, items.filter isCitationShape⟩
  | some a, _ => some ⟨a, []⟩

/-- The object-candidate loop of `extractChatResultFromCandidates`. -/
def objectsLoop : List JSVal → Option ChatResult
  | [] => none
  | c :: rest =>
    if truthy c ∧ isObjectType c then
      match normalizeChatResult c with
      | some r => some r
      | none => objectsLoop rest
    else objectsLoop rest

/-- The string-candidate loop of `extractChatResultFromCandidates`.
`jsonParse` stands for `JSON.parse`; `none` covers both a parse failure and
a parse to `null` (which makes `normalizeChatResult` throw), as either way
control reaches the catch block. -/
def stringsLoop (jsonParse : String → Option JSVal) : List String → Option ChatResult
  | [] => none
  | t :: rest =>
    match jsonParse t with
    | some parsed =>
      match normalizeChatResult parsed with
      | some r => some r
      | none => stringsLoop jsonParse rest
    | none =>
      if jsTrim t = "" then stringsLoop jsonParse rest else some ⟨t, []⟩

/-- `extractChatResultFromCandidates`. -/
def extractChatResultFromCandidates (jsonParse : String → Option JSVal)
    (objects : List JSVal) (strings : List String) : Option ChatResult :=
  match objectsLoop objects with
  | some r => some r
  | none => stringsLoop jsonParse strings

/-- The tail of `callResponses`: parse the model output defensively, falling
back to the fixed apology with empty citations. -/
def callResponsesParse (jsonParse : String → Option JSVal)
    (objects : List JSVal) (strings : List String) : ChatResult :=
  match extractChatResultFromCandidates jsonParse objects strings with
  | some r => r
  | none => ⟨"I had trouble parsing the model response.", []⟩

/-! ## Chat handler (`handleChat`, chat route) -/

/-- JavaScript regular-expression line terminators (excluded by `.`). -/
def isLineTerminator (c : Char) : Bool :=
  decide (c = '\n' ∨ c = '\r' ∨ c = '\u2028' ∨ c = '\u2029')

/-- Case-insensitive test that `s` starts with `/lookup`. -/
def startsWithLookupCI (s : String) : Bool :=
  decide ((s.toList.take 7).map Char.toLower = ("/lookup").toList)

/-- The regular expression `/^\/lookup\s*(.*)$/i` applied to the (trimmed)
question: the capture group when the question is in grounded mode.  `\s*`
greedily consumes whitespace (including line breaks) after the prefix, and
`(.*)$` then requires the remainder to contain no line terminator. -/
def lookupMatch (s : String) : Option String :=
  if startsWithLookupCI s then
    let rest := (s.toList.drop 7).dropWhile isJsSpace
    if rest.any isLineTerminator then none else some (String.mk rest)
  else none

/-- A chunk row joined with its file and folder names, as returned by
`getChunksByIds`. -/
structure ChunkCtx where
  id : String
  file_id : String
  folder_id : String
  owner_id : String
  visibility : Visibility
  chunk_index : Nat
  start_line : Nat
  end_line : Nat
  content : String
  file_name : String
  folder_name : String
  deriving DecidableEq, Repr

/-- `getChunksByIds`: empty input short-circuits; otherwise the rows whose
id is in the requested set. -/
def getChunksByIds (db : List ChunkCtx) (chunkIds : List String) : List ChunkCtx :=
  if chunkIds = [] then [] else db.filter (fun c => decide (c.id ∈ chunkIds))

/-- One entry of the `contexts` array built in grounded mode. -/
structure LookupContext where
  order : Nat
  chunkId : String
  folderName : String
  fileName : String
  startLine : Nat
  endLine : Nat
  content : String
  deriving DecidableEq, Repr

/-- Lookup in the `byId` map (`new Map(chunks.map(ch => [ch.id, ch]))`):
the last row with the id wins, as `Map` construction overwrites. -/
def byIdLookup (chunks : List ChunkCtx) (cid : String) : Option ChunkCtx :=
  chunks.reverse.find? (fun c => decide (c.id = cid))

/-- The `contexts` construction: map each surviving match (with its index)
to a context block, dropping matches whose chunk id resolves to no row. -/
def contextsOf (topMatches : List (ℚ × VectorMatch)) (chunks : List ChunkCtx) :
    List LookupContext :=
  topMatches.enum.filterMap (fun p =>
    match byIdLookup chunks p.2.2.chunkId with
    | none => none
    | some ch => some ⟨p.1, ch.id, ch.folder_name, ch.file_name,
        ch.start_line, ch.end_line, ch.content⟩)

/-- A row of the `messages` table (`recordChat`).  JSON serialization of
the citations is abstracted; the record keeps the citation values. -/
structure ChatRecord where
  id : String
  user_id : String
  question : String
  answer : String
  citations : List JSVal

/-- The JSON body returned by `handleChat`. -/
structure ChatResponse where
  id : String
  answer : String
  citations : List JSVal
  sources : List LookupContext

/-- A 4xx/5xx error (`HTTPException`). -/
structure HErr where
  status : Nat
  message : String
  deriving DecidableEq, Repr

/-- Result of a successful `handleChat` call: the response body, the
resulting `messages` store, and whether a language-model call was made. -/
structure ChatOutcome where
  response : ChatResponse
  messages : List ChatRecord
  llmCalled : Bool

/-- The fixed grounded-mode short-circuit answer. -/
def nothingRelevantAnswer : String :=
  "I couldn't find anything relevant in your Marble files."

/-- The embed-and-normalize step of grounded mode (the `try` block around
`createEmbeddings` and `normalizeQuestionEmbedding`): a provider failure or
a normalization failure both surface as the caught error. -/
def embedQuestion (embedRaw : Except String JSVal) : Except String JSVal :=
  match embedRaw with
  | .error e => .error e
  | .ok raw => normalizeQuestionEmbedding raw

/-- Steps 2 to 4 of grounded mode: query the public namespace and the
caller's private namespace, then merge and rank. -/
def groundedTopMatches (store : VectorStore) (userId : String) (embedding : JSVal)
    (topK : Nat) : List (ℚ × VectorMatch) :=
  mergeTopMatches [queryNamespace store publicNamespace embedding topK,
    queryNamespace store (privateNamespace userId) embedding topK] topK

/-- `handleChat`.  External calls enter as parameters: `embedRaw` is the
outcome of `createEmbeddings([lookupQuery])`, `jsonParse` is `JSON.parse`,
`llmObjects`/`llmStrings` are the candidate values extracted from the
language-model response payload, `chatId` is the generated id, and `store`,
`db`, `messages` are the vector index, chunk rows, and messages table. -/
def handleChat (userId : String) (question : String)
    (embedRaw : Except String JSVal) (jsonParse : String → Option JSVal)
    (llmObjects : List JSVal) (llmStrings : List String)
    (topKEnv : Option String) (store : VectorStore) (db : List ChunkCtx)
    (chatId : String) (messages : List ChatRecord) : Except HErr ChatOutcome :=
  let rawQuestion := jsTrim question
  if rawQuestion = "" then .error ⟨400, "Question cannot be empty"⟩
  else
    match lookupMatch rawQuestion with
    | none =>
      let structured := callResponsesParse jsonParse llmObjects llmStrings
      .ok ⟨⟨chatId, structured.answer, structured.citations, []⟩,
        messages ++ [⟨chatId, userId, rawQuestion, structured.answer, structured.citations⟩],
        true⟩
    | some capture =>
      let lookupQuery := jsTrim capture
      if lookupQuery = "" then .error ⟨400, "Lookup query cannot be empty"⟩
      else
        match embedQuestion embedRaw with
        | .error e => .error ⟨500, "Failed to embed lookup: " ++ e⟩
        | .ok embedding =>
          let topK := parseTopK topKEnv
          let topMatches := groundedTopMatches store userId embedding topK
          let chunkIds := topMatches.map (fun e => e.2.chunkId)
          if chunkIds = [] then
            .ok ⟨⟨chatId, nothingRelevantAnswer, [], []⟩, messages, false⟩
          else
            let chunks := getChunksByIds db chunkIds
            let contexts := contextsOf topMatches chunks
            if contexts = [] then
              .ok ⟨⟨chatId, nothingRelevantAnswer, [], []⟩, messages, false⟩
            else
              let structured := callResponsesParse jsonParse llmObjects llmStrings
              .ok ⟨⟨chatId, structured.answer, structured.citations, contexts⟩,
                messages ++
                  [⟨chatId, userId, rawQuestion, structured.answer, structured.citations⟩],
                true⟩

/-! ## Ingestion orchestrator (`ingestFileById`) -/

/-- A `files` row joined with its folder name (`getFileById`). -/
structure FileRec where
  id : String
  folder_id : String
  owner_id : String
  visibility : Visibility
  file_name : String
  folder_name : String
  r2_key : String
  status : String
  deriving DecidableEq, Repr

/-- A `chunks` row (`insertChunk`). -/
structure ChunkRec where
  id : String
  file_id : String
  folder_id : String
  owner_id : String
  visibility : Visibility
  chunk_index : Nat
  start_line : Nat
  end_line : Nat
  content : List Char
  deriving DecidableEq, Repr

/-- The storage touched by one ingestion: files, blob store, chunk rows,
vector index. -/
structure IngestState where
  files : List FileRec
  blobs : List (String × List Char)
  chunks : List ChunkRec
  vstore : VectorStore

/-- `getFileById`. -/
def getFileById (files : List FileRec) (fileId : String) : Option FileRec :=
  files.find? (fun f => decide (f.id = fileId))

/-- `env.MARBLE_FILES.get(key)` followed by `.text()`. -/
def blobLookup (blobs : List (String × List Char)) (key : String) : Option (List Char) :=
  (blobs.find? (fun p => decide (p.1 = key))).map (fun p => p.2)

/-- `deleteChunksForFile`: the deleted ids and the remaining rows. -/
def deleteChunksForFile (chunks : List ChunkRec) (fileId : String) :
    List String × List ChunkRec :=
  ((chunks.filter (fun c => decide (c.file_id = fileId))).map (fun c => c.id),
    chunks.filter (fun c => decide ¬(c.file_id = fileId)))

/-- `updateFileStatus`. -/
def updateFileStatus (files : List FileRec) (fileId status : String) : List FileRec :=
  files.map (fun f => if f.id = fileId then { f with status := status } else f)

/-- The per-chunk loop of `ingestFileById`: insert a chunk row, then upsert
its vector with full metadata; `idGen i` models `crypto.randomUUID()` for
the chunk at index `i`. -/
def insertChunksLoop (file : FileRec) (embeds : List (Option JSVal)) (idGen : Nat → String) :
    Nat → List TextChunk → List ChunkRec → VectorStore → List ChunkRec × VectorStore
  | _, [], chunkRows, vs => (chunkRows, vs)
  | i, ch :: rest, chunkRows, vs =>
    let chunkId := idGen i
    let row : ChunkRec := ⟨chunkId, file.id, file.folder_id, file.owner_id,
      file.visibility, i, ch.startLine, ch.endLine, ch.content⟩
    let md : VectorMetadata := ⟨chunkId, file.id, file.folder_id, file.folder_name,
      file.file_name, ch.startLine, ch.endLine, file.visibility, file.owner_id⟩
    insertChunksLoop file embeds idGen (i + 1) rest (chunkRows ++ [row])
      (upsertChunkVector vs chunkId (embeds.getD i none) md)

/-- `ingestFileById`.  `embedResult` is the outcome of the batched
`createEmbeddings` call (an error models a thrown `OpenAIError`, which the
source rethrows as a 502).  The outer `none` means the call never returns
(the `chunkText` loop diverges); a zero `chunkSize` models the thrown
`Error('chunkSize must be > 0')`, which the framework surfaces as a 500. -/
def ingestFileById (st : IngestState) (fileId actingUserId : String)
    (chunkSize overlap : Nat) (embedResult : Except String JSVal)
    (idGen : Nat → String) : Option (IngestState × Except HErr Nat) :=
  match getFileById st.files fileId with
  | none => some (st, .error ⟨404, "File not found"⟩)
  | some file =>
    if ¬(file.owner_id = actingUserId) then
      some (st, .error ⟨403, "You can only ingest your own files"⟩)
    else
      match blobLookup st.blobs file.r2_key with
      | none => some (st, .error ⟨404, "Uploaded object not found in R2"⟩)
      | some text =>
        if chunkSize = 0 then some (st, .error ⟨500, "chunkSize must be > 0"⟩)
        else
          match chunkTextRun text chunkSize overlap with
          | none => none
          | some chunks =>
            if chunks = [] then some (st, .error ⟨400, "No content found to ingest"⟩)
            else
              match embedResult with
              | .error msg => some (st, .error ⟨502, msg⟩)
              | .ok raw =>
                match normalizeEmbeddings raw with
                | .error msg =>
                  some (st, .error ⟨500, "Failed to parse embeddings: " ++ msg⟩)
                | .ok embeddings =>
                  if ¬(embeddings.length = chunks.length) then
                    some (st, .error ⟨500, "Embedding count mismatch: got " ++
                      toString embeddings.length ++ ", expected " ++
                      toString chunks.length⟩)
                  else
                    let del := deleteChunksForFile st.chunks file.id
                    let vs1 :=
                      if del.1 = [] then st.vstore
                      else deleteChunkVectors st.vstore del.1 file.visibility file.owner_id
                    let res := insertChunksLoop file embeddings idGen 0 chunks del.2 vs1
                    some (⟨updateFileStatus st.files file.id ("ready"), st.blobs,
                      res.1, res.2⟩, .ok chunks.length)

/-! ## Chunker proofs -/

theorem getD_eq_get (l : List Nat) (n : Nat) (h : n < l.length) :
    l.getD n 0 = l.get ⟨n, h⟩ := by
  induction l generalizing n with
  | nil => simp at h
  | cons a t ih =>
    cases n with
    | zero => rfl
    | succ m => exact ih m (by simpa using h)

theorem newlineOffsets_gt (s : List Char) (i : Nat) :
    ∀ x ∈ newlineOffsets s i, i < x := by
  induction s generalizing i with
  | nil => intro x hx; simp [newlineOffsets] at hx
  | cons c rest ih =>
    intro x hx
    by_cases hc : c = '\n'
    · simp [newlineOffsets, hc] at hx
      rcases hx with h | h
      · omega
      · have := ih (i + 1) x h; omega
    · simp [newlineOffsets, hc] at hx
      have := ih (i + 1) x hx; omega

theorem newlineOffsets_sorted (s : List Char) (i : Nat) :
    (newlineOffsets s i).Sorted (· < ·) := by
  induction s generalizing i with
  | nil => simp [newlineOffsets]
  | cons c rest ih =>
    by_cases hc : c = '\n'
    · simp only [newlineOffsets, hc, if_pos rfl]
      refine List.sorted_cons.mpr ⟨?_, ih (i + 1)⟩
      intro b hb
      have := newlineOffsets_gt rest (i + 1) b hb; omega
    · simpa [newlineOffsets, hc] using ih (i + 1)

theorem buildLineOffsets_sorted (s : List Char) :
    (buildLineOffsets s).Sorted (· < ·) := by
  refine List.sorted_cons.mpr ⟨?_, newlineOffsets_sorted s 0⟩
  intro b hb
  exact newlineOffsets_gt s 0 b hb

theorem le_lineRank_of_get_le {offsets : List Nat} {c : Nat}
    (hs : offsets.Sorted (· < ·)) (j : Nat) (hj : j < offsets.length)
    (h : offsets.get ⟨j, hj⟩ ≤ c) : j + 1 ≤ lineRank offsets c := by
  induction offsets generalizing j with
  | nil => simp at hj
  | cons a t ih =>
    rcases List.sorted_cons.mp hs with ⟨ha, ht⟩
    cases j with
    | zero =>
      have hac : a ≤ c := h
      simp [lineRank, List.countP_cons, hac]
    | succ m =>
      have hm : m < t.length := by simpa using hj
      have hgm : t.get ⟨m, hm⟩ ≤ c := h
      have hrec := ih ht m hm hgm
      have hag : a < t.get ⟨m, hm⟩ := ha _ (t.get_mem m hm)
      have hac : a ≤ c := by omega
      simp only [lineRank, List.countP_cons] at hrec ⊢
      simp [hac]; omega

theorem lineRank_le_of_lt_get {offsets : List Nat} {c : Nat}
    (hs : offsets.Sorted (· < ·)) (j : Nat) (hj : j < offsets.length)
    (h : c < offsets.get ⟨j, hj⟩) : lineRank offsets c ≤ j := by
  induction offsets generalizing j with
  | nil => simp at hj
  | cons a t ih =>
    rcases List.sorted_cons.mp hs with ⟨ha, ht⟩
    cases j with
    | zero =>
      have hca : c < a := h
      have hzero : t.countP (fun o => decide (o ≤ c)) = 0 := by
        refine List.countP_eq_zero.mpr ?_
        intro x hx
        have := ha x hx
        simp; omega
      simp [lineRank, List.countP_cons, hzero]
      omega
    | succ m =>
      have hm : m < t.length := by simpa using hj
      have hgm : c < t.get ⟨m, hm⟩ := h
      have hrec := ih ht m hm hgm
      simp only [lineRank, List.countP_cons] at hrec ⊢
      by_cases hac : a ≤ c <;> simp [hac] <;> omega

theorem lineRank_le_length (offsets : List Nat) (c : Nat) :
    lineRank offsets c ≤ offsets.length :=
  offsets.countP_le_length _

theorem lineRank_mono (offsets : List Nat) {c c' : Nat} (h : c ≤ c') :
    lineRank offsets c ≤ lineRank offsets c' := by
  induction offsets with
  | nil => simp [lineRank]
  | cons a t ih =>
    simp only [lineRank, List.countP_cons] at ih ⊢
    by_cases hac : a ≤ c
    · have : a ≤ c' := le_trans hac h
      simp [hac, this]; omega
    · by_cases hac' : a ≤ c' <;> simp [hac, hac'] <;> omega

theorem locateLineGo_of_gt (offsets : List Nat) (c : Nat) :
    ∀ (fuel : Nat) (low high : Int), high < low →
      locateLineGo offsets c fuel low high = offsets.length := by
  intro fuel low high hlt
  cases fuel with
  | zero => rfl
  | succ f => simp only [locateLineGo]; rw [if_neg (by omega)]

theorem locateLineGo_eq_rank {offsets : List Nat} {c : Nat}
    (hs : offsets.Sorted (· < ·)) :
    ∀ (fuel : Nat) (low high : Int), 0 ≤ low → high < (offsets.length : Int) →
      low ≤ (lineRank offsets c : Int) - 1 → (lineRank offsets c : Int) - 1 ≤ high →
      high - low < (fuel : Int) →
      locateLineGo offsets c fuel low high = lineRank offsets c := by
  intro fuel
  induction fuel with
  | zero => intro low high h0 hh hl hr hf; omega
  | succ f ih =>
    intro low high h0 hh hl hr hf
    have hlh : low ≤ high := by omega
    have hmid0 : 0 ≤ (low + high) / 2 := by omega
    have hmidlo : low ≤ (low + high) / 2 := by omega
    have hmidhi : (low + high) / 2 ≤ high := by omega
    set mid : Int := (low + high) / 2 with hmiddef
    have hmidlen : mid.toNat < offsets.length := by omega
    have hcast : (mid.toNat : Int) = mid := Int.toNat_of_nonneg hmid0
    simp only [locateLineGo, if_pos hlh]
    rw [← hmiddef, getD_eq_get offsets mid.toNat hmidlen]
    by_cases hlt : c < offsets.get ⟨mid.toNat, hmidlen⟩
    · rw [if_pos hlt]
      have hb := lineRank_le_of_lt_get hs mid.toNat hmidlen hlt
      exact ih low (mid - 1) h0 (by omega) hl (by omega) (by omega)
    · rw [if_neg hlt]
      have hgle : offsets.get ⟨mid.toNat, hmidlen⟩ ≤ c := by omega
      have ha := le_lineRank_of_get_le hs mid.toNat hmidlen hgle
      by_cases hnext : mid.toNat + 1 < offsets.length
      · rw [if_pos hnext, getD_eq_get offsets (mid.toNat + 1) hnext]
        by_cases hge : offsets.get ⟨mid.toNat + 1, hnext⟩ ≤ c
        · rw [if_pos hge]
          have ha2 := le_lineRank_of_get_le hs (mid.toNat + 1) hnext hge
          exact ih (mid + 1) high (by omega) hh (by omega) hr (by omega)
        · rw [if_neg hge]
          have hclt : c < offsets.get ⟨mid.toNat + 1, hnext⟩ := by omega
          have hb2 := lineRank_le_of_lt_get hs (mid.toNat + 1) hnext hclt
          omega
      · rw [if_neg hnext]
        have hrle := lineRank_le_length offsets c
        have hrank : lineRank offsets c = offsets.length := by omega
        by_cases hmax : maxSafeInteger ≤ c
        · rw [if_pos hmax, locateLineGo_of_gt offsets c f (mid + 1) high (by omega), hrank]
        · rw [if_neg hmax]
          omega

theorem locateLine_eq_rank {s : List Char} (c : Nat) :
    locateLine (buildLineOffsets s) c = lineRank (buildLineOffsets s) c := by
  have hs := buildLineOffsets_sorted s
  have hnil : 0 < (buildLineOffsets s).length := by simp [buildLineOffsets]
  have hhead : (buildLineOffsets s).get ⟨0, hnil⟩ = 0 := rfl
  have h1 : 1 ≤ lineRank (buildLineOffsets s) c :=
    le_lineRank_of_get_le hs 0 hnil (by omega)
  have h2 := lineRank_le_length (buildLineOffsets s) c
  exact locateLineGo_eq_rank hs ((buildLineOffsets s).length + 1) 0
    ((buildLineOffsets s).length - 1) (by omega) (by omega) (by omega) (by omega) (by omega)

theorem locateLine_mono (s : List Char) {c c' : Nat} (h : c ≤ c') :
    locateLine (buildLineOffsets s) c ≤ locateLine (buildLineOffsets s) c' := by
  rw [locateLine_eq_rank c, locateLine_eq_rank c']
  exact lineRank_mono _ h

/-- Main invariant of the `chunkText` loop under forward progress
(`overlap < chunkSize`): the loop terminates from any in-range position,
produces a non-empty chunk list whose head covers the current window, whose
reassembly (overlaps removed) is exactly the remaining suffix of the
source, whose line ranges are well-ordered, and whose last chunk ends at
the end of the source. -/
theorem chunkTextGo_spec (source : List Char) (cs ov : Nat) (hcs : 0 < cs) (hov : ov < cs) :
    ∀ (fuel position idx : Nat), position < source.length →
      source.length - position < fuel →
      ∃ chunks,
        chunkTextGo source cs ov (buildLineOffsets source) fuel position idx = some chunks ∧
        chunks ≠ [] ∧
        (∃ hc rest0, chunks = hc :: rest0 ∧
          hc.content = (source.drop position).take (min source.length (position + cs) - position)) ∧
        reconcat ov chunks = source.drop position ∧
        (∀ ch ∈ chunks, ch.startLine ≤ ch.endLine) ∧
        (∃ lc, chunks.getLast? = some lc ∧
          lc.content = source.drop (source.length - lc.content.length)) := by
  intro fuel
  induction fuel with
  | zero => intro position idx hpos hfuel; omega
  | succ f ih =>
    intro position idx hpos hfuel
    have hppe : position < min source.length (position + cs) := by omega
    have hline : locateLine (buildLineOffsets source) position ≤
        locateLine (buildLineOffsets source) (min source.length (position + cs) - 1) :=
      locateLine_mono source (by omega)
    by_cases he : min source.length (position + cs) = source.length
    · refine ⟨[⟨(source.drop position).take (min source.length (position + cs) - position),
        locateLine (buildLineOffsets source) position,
        locateLine (buildLineOffsets source) (min source.length (position + cs) - 1),
        idx⟩], ?_, ?_, ?_, ?_, ?_, ?_⟩
      · simp only [chunkTextGo, if_pos hpos, if_pos hppe, if_pos he]
      · simp
      · exact ⟨_, [], rfl, rfl⟩
      · have hlen : (source.drop position).length ≤ min source.length (position + cs) - position := by
          simp [List.length_drop]; omega
        simp [reconcat, List.take_of_length_le hlen]
      · intro ch hch
        simp at hch
        subst hch
        exact hline
      · have hlen : (source.drop position).length ≤ min source.length (position + cs) - position := by
          simp [List.length_drop]; omega
        refine ⟨_, List.getLast?_singleton _, ?_⟩
        show (source.drop position).take (min source.length (position + cs) - position) =
          source.drop (source.length -
            ((source.drop position).take (min source.length (position + cs) - position)).length)
        rw [List.take_of_length_le hlen, List.length_drop]
        congr 1
        omega
    · have he2 : min source.length (position + cs) = position + cs := by omega
      have hpcs : position + cs < source.length := by omega
      have hpos' : position + cs - ov < source.length := by omega
      have hfuel' : source.length - (position + cs - ov) < f := by omega
      obtain ⟨rest, hrest, hrne, ⟨r0, rest', hr0, hr0c⟩, hrecon, hlines, lc, hlast, hlastc⟩ :=
        ih (position + cs - ov) (idx + 1) hpos' hfuel'
      refine ⟨⟨(source.drop position).take (min source.length (position + cs) - position),
        locateLine (buildLineOffsets source) position,
        locateLine (buildLineOffsets source) (min source.length (position + cs) - 1),
        idx⟩ :: rest, ?_, ?_, ?_, ?_, ?_, ?_⟩
      · have he3 : ¬(position + cs = source.length) := by omega
        have hlt : position < position + cs := by omega
        simp only [chunkTextGo, if_pos hpos, if_pos hppe, he2, if_neg he3]
        rw [hrest]
        simp [hlt]
      · simp
      · exact ⟨_, rest, rfl, rfl⟩
      · subst hr0
        have hflat : (rest'.map (fun x => x.content.drop ov)).flatten =
            (source.drop (position + cs - ov)).drop r0.content.length := by
          have := congrArg (List.drop r0.content.length) hrecon
          simpa only [reconcat, List.drop_left] using this
        simp only [reconcat, List.map_cons, List.flatten_cons]
        rw [hflat, hr0c]
        have hlen1 : ((source.drop (position + cs - ov)).take
            (min source.length (position + cs - ov + cs) - (position + cs - ov))).length =
            min source.length (position + cs - ov + cs) - (position + cs - ov) := by
          simp [List.length_take, List.length_drop]
          omega
        rw [hlen1, List.drop_take, List.drop_drop, List.drop_drop]
        have h1 : position + cs - ov + ov = position + cs := by omega
        have h2 : position + cs - ov +
            (min source.length (position + cs - ov + cs) - (position + cs - ov)) =
            min source.length (position + cs - ov + cs) := by omega
        rw [h1, h2]
        have hsplit2 : (source.drop (position + cs)).take
              (min source.length (position + cs - ov + cs) - (position + cs - ov) - ov) ++
              source.drop (min source.length (position + cs - ov + cs)) =
            source.drop (position + cs) := by
          have hd : (source.drop (position + cs)).drop
              (min source.length (position + cs - ov + cs) - (position + cs - ov) - ov) =
              source.drop (min source.length (position + cs - ov + cs)) := by
            rw [List.drop_drop]; congr 1; omega
          rw [← hd, List.take_append_drop]
        have hsplit1 : (source.drop position).take
              (min source.length (position + cs) - position) ++
              source.drop (position + cs) = source.drop position := by
          have hd : (source.drop position).drop
              (min source.length (position + cs) - position) =
              source.drop (position + cs) := by
            rw [List.drop_drop]; congr 1; omega
          rw [← hd, List.take_append_drop]
        conv_rhs => rw [← hsplit1, ← hsplit2]
      · intro ch hch
        rcases List.mem_cons.mp hch with h | h
        · subst h; exact hline
        · exact hlines ch h
      · refine ⟨lc, ?_, hlastc⟩
        rw [hr0] at hlast ⊢
        rw [List.getLast?_cons_cons]
        exact hlast

theorem chunkTextGo_stall :
    ∀ (fuel idx : Nat),
      chunkTextGo (['a', 'a', 'a']) 2 2 (buildLineOffsets (['a', 'a', 'a'])) fuel 0 idx = none := by
  intro fuel
  induction fuel with
  | zero => intro idx; rfl
  | succ f ih =>
    intro idx
    simp only [chunkTextGo]
    norm_num
    rw [ih (idx + 1)]

/-- C2, counterexample: on the three-character source `aaa` with
`chunkSize = 2 > 0` and `overlap = 2 ≥ 0` the `chunkText` loop never
terminates — `position = Math.max(0, end - overlap)` recomputes `0` on
every iteration, so no amount of fuel completes the loop.  The
implementation has no forward-progress guard. -/
theorem c2_counterexample :
    0 < 2 ∧ ¬ chunkTerminates (['a', 'a', 'a']) 2 2 := by
  refine ⟨by norm_num, ?_⟩
  rintro ⟨fuel, h⟩
  rw [chunkTextGo_stall fuel 0] at h
  simp at h

/-- C2, amended: `chunkText` terminates for every source string and every
option set with `chunkSize > 0` and `0 ≤ overlap < chunkSize` (the window
start then advances by at least one character per iteration); when
`overlap ≥ chunkSize` the loop can run forever, as the counterexample
shows. -/
theorem c2_amended (source : List Char) (chunkSize overlap : Nat)
    (hcs : 0 < chunkSize) (hov : overlap < chunkSize) :
    chunkTerminates source chunkSize overlap := by
  refine ⟨source.length + 1, ?_⟩
  by_cases hpos : 0 < source.length
  · obtain ⟨chunks, hchunks, -⟩ :=
      chunkTextGo_spec source chunkSize overlap hcs hov (source.length + 1) 0 0 hpos (by omega)
    rw [hchunks]
    rfl
  · have hlen : source.length = 0 := by omega
    rw [hlen]
    simp [chunkTextGo, hlen]

/-- C2, amended, witness at a concrete input. -/
theorem c2_amended_witness : chunkTerminates (['a', 'b', 'c']) 2 1 :=
  c2_amended (['a', 'b', 'c']) 2 1 (by decide) (by decide)

/-- C4: for every non-empty source and options with `chunkSize > 0` and
`0 ≤ overlap < chunkSize`, `chunkText` returns a non-empty chunk list;
concatenating the chunks' contents after removing the first `overlap`
characters of every chunk except the first reconstructs the source
exactly; every chunk satisfies `startLine ≤ endLine`; and the last chunk's
content is exactly the final segment of the source, i.e. its end offset is
`source.length`. -/
theorem c4_chunk_reconstruction (source : List Char) (chunkSize overlap : Nat)
    (hne : source ≠ []) (hcs : 0 < chunkSize) (hov : overlap < chunkSize) :
    ∃ chunks, chunkTextRun source chunkSize overlap = some chunks ∧
      chunks ≠ [] ∧
      reconcat overlap chunks = source ∧
      (∀ ch ∈ chunks, ch.startLine ≤ ch.endLine) ∧
      (∃ lc, chunks.getLast? = some lc ∧
        lc.content = source.drop (source.length - lc.content.length)) := by
  have hpos : 0 < source.length := List.length_pos.mpr hne
  obtain ⟨chunks, hchunks, hne2, -, hrecon, hlines, hlast⟩ :=
    chunkTextGo_spec source chunkSize overlap hcs hov (source.length + 1) 0 0 hpos (by omega)
  refine ⟨chunks, hchunks, hne2, ?_, hlines, hlast⟩
  simpa using hrecon

/-- C4, witness at a concrete input. -/
theorem c4_chunk_reconstruction_witness :
    ∃ chunks, chunkTextRun (['a', 'b', 'c']) 2 1 = some chunks ∧
      chunks ≠ [] ∧
      reconcat 1 chunks = ['a', 'b', 'c'] ∧
      (∀ ch ∈ chunks, ch.startLine ≤ ch.endLine) ∧
      (∃ lc, chunks.getLast? = some lc ∧
        lc.content = (['a', 'b', 'c'] : List Char).drop (3 - lc.content.length)) :=
  c4_chunk_reconstruction (['a', 'b', 'c']) 2 1 (by decide) (by decide) (by decide)

/-- C5, counterexample: on the 28-character source
`"Line one\nLine two\nLine three"` with `chunkSize = 9` and `overlap = 2`,
the first chunk's content is the nine characters `"Line one\n"` with
`startLine = 1`, but its `endLine` is `1`, not `2`: the final newline of
the window is the last character of line 1 (`locateLine` maps offset 8 to
line 1), so the claimed `endLine = 2` is false. -/
theorem c5_counterexample :
    ((chunkTextRun (("Line one\nLine two\nLine three").toList) 9 2).bind List.head?).map
        (fun ch => (ch.content, ch.startLine, ch.endLine)) =
      some ((("Line one\n").toList), 1, 1) ∧
    ¬ (((chunkTextRun (("Line one\nLine two\nLine three").toList) 9 2).bind List.head?).map
        (fun ch => (ch.content, ch.startLine, ch.endLine)) =
      some ((("Line one\n").toList), 1, 2)) := by
  decide

/-- C5, amended: on `"Line one\nLine two\nLine three"` with `chunkSize 9`
and `overlap 2` the first chunk is `"Line one\n"` with `startLine = 1` and
`endLine = 1` (the boundary newline is attributed to line 1), the
subsequent chunks follow deterministically, and the reconstruction with
overlaps removed equals the input. -/
theorem c5_amended :
    chunkTextRun (("Line one\nLine two\nLine three").toList) 9 2 =
      some [⟨("Line one\n").toList, 1, 1, 0⟩, ⟨("e\nLine tw").toList, 1, 2, 1⟩,
        ⟨("two\nLine ").toList, 2, 3, 2⟩, ⟨("e three").toList, 3, 3, 3⟩] ∧
    reconcat 2 [⟨("Line one\n").toList, 1, 1, 0⟩, ⟨("e\nLine tw").toList, 1, 2, 1⟩,
        ⟨("two\nLine ").toList, 2, 3, 2⟩, ⟨("e three").toList, 3, 3, 3⟩] =
      ("Line one\nLine two\nLine three").toList := by
  decide

theorem userNs_inj {A B : String} (h : ("user:" ++ A : String) = "user:" ++ B) : A = B := by
  have h2 := congrArg String.data h
  rw [String.data_append, String.data_append] at h2
  exact String.ext (List.append_cancel_left h2)

theorem filterFromNamespace_userNs (B : String) :
    filterFromNamespace ("user:" ++ B) = MetaFilter.visPrivate B := by
  have hne : ¬(("user:" ++ B : String) = "public") := by
    intro h
    have h2 := congrArg String.data h
    rw [String.data_append] at h2
    simp at h2
  have hsw : jsStartsWith ("user:" ++ B) ("user:") = true := by
    simp only [jsStartsWith, decide_eq_true_eq, String.data_append]
    show (("user:").data ++ B.data).take (("user:").data).length = ("user:").data
    exact List.take_left _ _
  have hdrop : (("user:" ++ B : String)).drop 5 = B := by
    apply String.ext
    rw [String.data_drop, String.data_append]
    show (("user:").data ++ B.data).drop (("user:").data).length = B.data
    exact List.drop_left _ _
  simp [filterFromNamespace, hne, hsw, hdrop]

theorem filter_filter_of_imp {α : Type} (pOut qIn : α → Bool) (l : List α)
    (h : ∀ a, pOut a = true → qIn a = true) :
    (l.filter qIn).filter pOut = l.filter pOut := by
  induction l with
  | nil => rfl
  | cons a t ih =>
    by_cases hq : qIn a = true
    · rw [List.filter_cons, if_pos hq, List.filter_cons, List.filter_cons]
      by_cases hp : pOut a = true
      · rw [if_pos hp, if_pos hp, ih]
      · rw [if_neg hp, if_neg hp, ih]
    · have hp : ¬(pOut a = true) := fun hpa => hq (h a hpa)
      rw [List.filter_cons, if_neg hq, ih, List.filter_cons, if_neg hp]

theorem v1upsert_filter_ne (es : List (String × StoredVector)) (ns nsB : String)
    (v : StoredVector) (h : ¬(ns = nsB)) :
    (v1upsert es ns v).filter (fun p => decide (p.1 = nsB)) =
      es.filter (fun p => decide (p.1 = nsB)) := by
  unfold v1upsert
  rw [List.filter_append]
  have h1 : ([(ns, v)] : List (String × StoredVector)).filter
      (fun p => decide (p.1 = nsB)) = [] := by
    simp [h]
  rw [h1, List.append_nil]
  apply filter_filter_of_imp
  intro a hpa
  have ha : a.1 = nsB := of_decide_eq_true hpa
  apply decide_eq_true
  rintro ⟨hx, -⟩
  exact h (by rw [← hx, ha])

theorem v2FilteredMatches_owner (es : List StoredVector) (B : String) (topK : Nat) :
    ∀ r ∈ v2FilteredMatches es ("user:" ++ B) topK,
      r.ownerId = B ∧ r.visibility = Visibility.«private» := by
  intro r hr
  unfold v2FilteredMatches at hr
  rw [filterFromNamespace_userNs] at hr
  unfold indexScanV2 at hr
  simp only at hr
  rcases List.mem_filterMap.mp hr with ⟨raw, hraw, hbuild⟩
  have hraw2 := List.mem_of_mem_take hraw
  rcases List.mem_map.mp hraw2 with ⟨v, hv, hveq⟩
  have hvfil := (List.mem_filter.mp hv).2
  obtain ⟨vid, vvals, vmd⟩ := v
  cases vmd with
  | none => simp [matchesFilter] at hvfil
  | some m =>
    simp only [matchesFilter, decide_eq_true_eq] at hvfil
    subst hveq
    simp only [buildMatch] at hbuild
    by_cases hc : m.chunkId = ""
    · rw [if_pos hc] at hbuild
      exact absurd hbuild (by simp)
    · rw [if_neg hc] at hbuild
      have hre := Option.some.inj hbuild
      rw [← hre]
      exact ⟨hvfil.2, hvfil.1⟩

/-- C1, counterexample: under the generation-B API, a vector upserted with
private metadata for owner `A` into an otherwise empty index is returned by
a query against owner `B`'s private namespace (`A ≠ B`): the filtered query
finds nothing, so `queryNamespace` retries without the metadata filter and
surfaces `A`'s vector (with `ownerId = "A"`) to `B`. -/
theorem c1_counterexample :
    ¬(("A" : String) = "B") ∧
    queryNamespace
        (upsertChunkVector (VectorStore.v2 []) ("c1") (some (JSVal.arr [JSVal.num 1]))
          ⟨"c1", "f1", "d1", "Docs", "notes.txt", 1, 2, Visibility.«private», "A"⟩)
        (privateNamespace ("B")) (JSVal.arr [JSVal.num 1]) 8 =
      [⟨"c1", "f1", "d1", "Docs", "notes.txt", 1, 2, Visibility.«private», "A", 0⟩] := by
  constructor
  · decide
  · rfl

/-- C1, amended: namespace isolation holds unconditionally under the
generation-A (namespace-keyed) API — upserting a private vector for owner
`A` leaves any query against `user:B` (`A ≠ B`) unchanged — and under the
generation-B API on the filtered path: whenever the filtered query returns
at least one match (so the no-filter fallback is not taken), every returned
match carries owner `B`'s private metadata, hence none originates from
`A`'s vector.  The original claim fails only on the generation-B fallback
taken when the filtered query is empty (see the counterexample). -/
theorem c1_amended (A B : String) (hAB : ¬(A = B)) (es1 : List (String × StoredVector))
    (es2 : List StoredVector) (chunkId : String) (embedding : Option JSVal)
    (metadata : VectorMetadata) (hvis : metadata.visibility = Visibility.«private»)
    (hown : metadata.ownerId = A) (q : JSVal) (topK : Nat) :
    queryNamespace (upsertChunkVector (VectorStore.v1 es1) chunkId embedding metadata)
        (privateNamespace B) q topK =
      queryNamespace (VectorStore.v1 es1) (privateNamespace B) q topK ∧
    (∀ r ∈ v2FilteredMatches (v2upsert es2 ⟨chunkId, embedding, some metadata⟩)
        (privateNamespace B) topK, r.ownerId = B ∧ r.visibility = Visibility.«private») ∧
    (¬(v2FilteredMatches (v2upsert es2 ⟨chunkId, embedding, some metadata⟩)
          (privateNamespace B) topK = []) →
      queryNamespace (upsertChunkVector (VectorStore.v2 es2) chunkId embedding metadata)
          (privateNamespace B) q topK =
        v2FilteredMatches (v2upsert es2 ⟨chunkId, embedding, some metadata⟩)
          (privateNamespace B) topK) := by
  refine ⟨?_, ?_, ?_⟩
  · show queryNamespace (VectorStore.v1 (v1upsert es1
        (partitionForVisibility metadata.visibility metadata.ownerId)
        ⟨chunkId, embedding, some metadata⟩)) (privateNamespace B) q topK = _
    have hns : partitionForVisibility metadata.visibility metadata.ownerId = "user:" ++ A := by
      simp [partitionForVisibility, hvis, hown]
    rw [hns]
    show (indexScanV1 _ _ _).filterMap _ = (indexScanV1 _ _ _).filterMap _
    unfold indexScanV1
    rw [v1upsert_filter_ne]
    intro h
    exact hAB (userNs_inj h)
  · exact v2FilteredMatches_owner _ B topK
  · intro hne
    show queryNamespace (VectorStore.v2 (v2upsert es2 ⟨chunkId, embedding, some metadata⟩))
        (privateNamespace B) q topK = _
    unfold queryNamespace
    simp only
    rw [if_neg]
    rintro ⟨hempty, -⟩
    exact hne (List.isEmpty_iff.mp hempty)

/-- C1, amended, witness at concrete inputs. -/
theorem c1_amended_witness :
    queryNamespace
        (upsertChunkVector (VectorStore.v1 []) ("c1") none
          ⟨"c1", "f1", "d1", "Docs", "notes.txt", 1, 2, Visibility.«private», "A"⟩)
        (privateNamespace ("B")) (JSVal.arr []) 8 =
      queryNamespace (VectorStore.v1 []) (privateNamespace ("B")) (JSVal.arr []) 8 ∧
    (∀ r ∈ v2FilteredMatches
        (v2upsert
          [⟨"cB", none, some ⟨"cB", "f2", "d2", "Docs", "b.txt", 1, 1, Visibility.«private», "B"⟩⟩]
          ⟨"c1", none, some ⟨"c1", "f1", "d1", "Docs", "notes.txt", 1, 2, Visibility.«private», "A"⟩⟩)
        (privateNamespace ("B")) 8, r.ownerId = "B" ∧ r.visibility = Visibility.«private») ∧
    (¬(v2FilteredMatches
          (v2upsert
            [⟨"cB", none, some ⟨"cB", "f2", "d2", "Docs", "b.txt", 1, 1, Visibility.«private», "B"⟩⟩]
            ⟨"c1", none, some ⟨"c1", "f1", "d1", "Docs", "notes.txt", 1, 2, Visibility.«private», "A"⟩⟩)
          (privateNamespace ("B")) 8 = []) →
      queryNamespace
          (upsertChunkVector
            (VectorStore.v2
              [⟨"cB", none, some ⟨"cB", "f2", "d2", "Docs", "b.txt", 1, 1, Visibility.«private», "B"⟩⟩])
            ("c1") none
            ⟨"c1", "f1", "d1", "Docs", "notes.txt", 1, 2, Visibility.«private», "A"⟩)
          (privateNamespace ("B")) (JSVal.arr []) 8 =
        v2FilteredMatches
          (v2upsert
            [⟨"cB", none, some ⟨"cB", "f2", "d2", "Docs", "b.txt", 1, 1, Visibility.«private», "B"⟩⟩]
            ⟨"c1", none, some ⟨"c1", "f1", "d1", "Docs", "notes.txt", 1, 2, Visibility.«private», "A"⟩⟩)
          (privateNamespace ("B")) 8) :=
  c1_amended ("A") ("B") (by decide) []
    [⟨"cB", none, some ⟨"cB", "f2", "d2", "Docs", "b.txt", 1, 1, Visibility.«private», "B"⟩⟩]
    ("c1") none ⟨"c1", "f1", "d1", "Docs", "notes.txt", 1, 2, Visibility.«private», "A"⟩
    rfl rfl (JSVal.arr []) 8

/-- Invariant of the merge loop: after folding the matches `seen`, the
accumulator has pairwise-distinct chunk-id keys, every entry holds a match
from `seen` with that chunk id whose stored score equals the match's score
and is maximal among all `seen` scores for that id, and every seen chunk id
has an entry. -/
def MergedInv (seen : List VectorMatch) (acc : List (String × ℚ × VectorMatch)) : Prop :=
  (acc.map (fun p => p.1)).Nodup ∧
  (∀ p ∈ acc, p.2.2.chunkId = p.1 ∧ p.2.1 = p.2.2.score ∧ p.2.2 ∈ seen ∧
    ∀ m ∈ seen, m.chunkId = p.1 → m.score ≤ p.2.1) ∧
  (∀ m ∈ seen, ∃ p ∈ acc, p.1 = m.chunkId)

theorem eq_of_nodup_keys {acc : List (String × ℚ × VectorMatch)}
    (h : (acc.map (fun p => p.1)).Nodup) {p q : String × ℚ × VectorMatch}
    (hp : p ∈ acc) (hq : q ∈ acc) (heq : p.1 = q.1) : p = q := by
  induction acc with
  | nil => simp at hp
  | cons a t ih =>
    rcases List.mem_cons.mp hp with rfl | hp2
    · rcases List.mem_cons.mp hq with rfl | hq2
      · rfl
      · exfalso
        have hmem : q.1 ∈ t.map (fun p => p.1) := List.mem_map_of_mem _ hq2
        rw [← heq] at hmem
        exact (List.nodup_cons.mp h).1 hmem
    · rcases List.mem_cons.mp hq with rfl | hq2
      · exfalso
        have hmem : p.1 ∈ t.map (fun p => p.1) := List.mem_map_of_mem _ hp2
        rw [heq] at hmem
        exact (List.nodup_cons.mp h).1 hmem
      · exact ih (List.nodup_cons.mp h).2 hp2 hq2

theorem mergeStep_inv {seen : List VectorMatch} {acc : List (String × ℚ × VectorMatch)}
    (hinv : MergedInv seen acc) (m : VectorMatch) :
    MergedInv (seen ++ [m]) (mergeStep acc m) := by
  obtain ⟨hnd, hent, hcov⟩ := hinv
  cases hfind : acc.find? (fun p => decide (p.1 = m.chunkId)) with
  | none =>
    simp only [mergeStep, hfind]
    have hnone : ∀ p ∈ acc, ¬(p.1 = m.chunkId) := by
      intro p hp
      have := List.find?_eq_none.mp hfind p hp
      simpa using this
    refine ⟨?_, ?_, ?_⟩
    · rw [List.map_append]
      simp only [List.map_cons, List.map_nil]
      rw [List.nodup_append]
      refine ⟨hnd, List.nodup_singleton _, ?_⟩
      intro k hk
      rcases List.mem_map.mp hk with ⟨p, hp, rfl⟩
      simp only [List.mem_singleton]
      intro hkm
      exact hnone p hp hkm
    · intro p hp
      rcases List.mem_append.mp hp with hp2 | hp2
      · obtain ⟨h1, h2, h3, h4⟩ := hent p hp2
        refine ⟨h1, h2, List.mem_append_left _ h3, ?_⟩
        intro m2 hm2 hkey
        rcases List.mem_append.mp hm2 with hm3 | hm3
        · exact h4 m2 hm3 hkey
        · rw [List.mem_singleton.mp hm3] at hkey
          exact absurd hkey.symm (hnone p hp2)
      · rw [List.mem_singleton.mp hp2]
        refine ⟨rfl, rfl, List.mem_append_right _ (List.mem_singleton_self m), ?_⟩
        intro m2 hm2 hkey
        rcases List.mem_append.mp hm2 with hm3 | hm3
        · exfalso
          obtain ⟨p2, hp2, hp2k⟩ := hcov m2 hm3
          exact hnone p2 hp2 (hp2k.trans hkey)
        · rw [List.mem_singleton.mp hm3]
    · intro m2 hm2
      rcases List.mem_append.mp hm2 with hm3 | hm3
      · obtain ⟨p2, hp2, hp2k⟩ := hcov m2 hm3
        exact ⟨p2, List.mem_append_left _ hp2, hp2k⟩
      · rw [List.mem_singleton.mp hm3]
        exact ⟨(m.chunkId, m.score, m), List.mem_append_right _ (List.mem_singleton_self _), rfl⟩
  | some p0 =>
    have hp0mem : p0 ∈ acc := List.mem_of_find?_eq_some hfind
    have hp0key : p0.1 = m.chunkId := by
      have := List.find?_some hfind
      simpa using this
    by_cases hlt : p0.2.1 < m.score
    · simp only [mergeStep, hfind, if_pos hlt]
      have hkeys : (acc.map (fun q => if q.1 = m.chunkId then (m.chunkId, m.score, m) else q)).map
          (fun p => p.1) = acc.map (fun p => p.1) := by
        rw [List.map_map]
        apply List.map_congr_left
        intro q hq
        by_cases hk : q.1 = m.chunkId
        · simp [hk]
        · simp [hk]
      refine ⟨by rw [hkeys]; exact hnd, ?_, ?_⟩
      · intro q' hq'
        rcases List.mem_map.mp hq' with ⟨q, hq, rfl⟩
        by_cases hk : q.1 = m.chunkId
        · rw [if_pos hk]
          refine ⟨rfl, rfl, List.mem_append_right _ (List.mem_singleton_self m), ?_⟩
          intro m2 hm2 hkey
          rcases List.mem_append.mp hm2 with hm3 | hm3
          · obtain ⟨-, -, -, h4⟩ := hent p0 hp0mem
            have hmk : m2.chunkId = p0.1 := by rw [hkey]; exact hp0key.symm
            have := h4 m2 hm3 hmk
            exact le_of_lt (lt_of_le_of_lt this hlt)
          · rw [List.mem_singleton.mp hm3]
        · rw [if_neg hk]
          obtain ⟨h1, h2, h3, h4⟩ := hent q hq
          refine ⟨h1, h2, List.mem_append_left _ h3, ?_⟩
          intro m2 hm2 hkey
          rcases List.mem_append.mp hm2 with hm3 | hm3
          · exact h4 m2 hm3 hkey
          · rw [List.mem_singleton.mp hm3] at hkey
            exact absurd hkey (fun hx => hk hx.symm)
      · intro m2 hm2
        rcases List.mem_append.mp hm2 with hm3 | hm3
        · obtain ⟨p2, hp2, hp2k⟩ := hcov m2 hm3
          refine ⟨(fun q => if q.1 = m.chunkId then (m.chunkId, m.score, m) else q) p2,
            List.mem_map_of_mem _ hp2, ?_⟩
          by_cases hk : p2.1 = m.chunkId
          · simp only [if_pos hk]
            rw [← hk]
            exact hp2k
          · simp only [if_neg hk]
            exact hp2k
        · rw [List.mem_singleton.mp hm3]
          refine ⟨(fun q => if q.1 = m.chunkId then (m.chunkId, m.score, m) else q) p0,
            List.mem_map_of_mem _ hp0mem, ?_⟩
          simp [hp0key]
    · simp only [mergeStep, hfind, if_neg hlt]
      refine ⟨hnd, ?_, ?_⟩
      · intro q hq
        obtain ⟨h1, h2, h3, h4⟩ := hent q hq
        refine ⟨h1, h2, List.mem_append_left _ h3, ?_⟩
        intro m2 hm2 hkey
        rcases List.mem_append.mp hm2 with hm3 | hm3
        · exact h4 m2 hm3 hkey
        · rw [List.mem_singleton.mp hm3] at hkey ⊢
          have hq0 : q = p0 := eq_of_nodup_keys hnd hq hp0mem (by rw [← hkey, hp0key])
          rw [hq0]
          exact le_of_not_lt hlt
      · intro m2 hm2
        rcases List.mem_append.mp hm2 with hm3 | hm3
        · exact hcov m2 hm3
        · rw [List.mem_singleton.mp hm3]
          exact ⟨p0, hp0mem, hp0key⟩

theorem mergeFold_inv : ∀ (todo seen : List VectorMatch) (acc : List (String × ℚ × VectorMatch)),
    MergedInv seen acc → MergedInv (seen ++ todo) (todo.foldl mergeStep acc) := by
  intro todo
  induction todo with
  | nil => intro seen acc h; simpa using h
  | cons m rest ih =>
    intro seen acc h
    have h3 := ih (seen ++ [m]) (mergeStep acc m) (mergeStep_inv h m)
    rw [List.foldl_cons]
    simpa [List.append_assoc] using h3

theorem mergedEntries_inv (results : List (List VectorMatch)) :
    MergedInv results.flatten (mergedEntries results) := by
  have h := mergeFold_inv results.flatten [] []
    ⟨List.nodup_nil, by intro p hp; simp at hp, by intro m hm; simp at hm⟩
  simpa [mergedEntries] using h

theorem insertByScoreDesc_perm (x : ℚ × VectorMatch) (l : List (ℚ × VectorMatch)) :
    (insertByScoreDesc x l).Perm (x :: l) := by
  induction l with
  | nil => exact List.Perm.refl _
  | cons y rest ih =>
    unfold insertByScoreDesc
    by_cases h : x.1 < y.1
    · rw [if_pos h]
      exact (ih.cons y).trans (List.Perm.swap x y rest)
    · rw [if_neg h]

theorem sortByScoreDesc_perm (l : List (ℚ × VectorMatch)) :
    (sortByScoreDesc l).Perm l := by
  induction l with
  | nil => exact List.Perm.refl _
  | cons x rest ih =>
    exact (insertByScoreDesc_perm x (sortByScoreDesc rest)).trans (ih.cons x)

theorem insertByScoreDesc_sorted (x : ℚ × VectorMatch) {l : List (ℚ × VectorMatch)}
    (h : l.Sorted (fun a b => b.1 ≤ a.1)) :
    (insertByScoreDesc x l).Sorted (fun a b => b.1 ≤ a.1) := by
  induction l with
  | nil => exact List.sorted_singleton x
  | cons y rest ih =>
    rcases List.sorted_cons.mp h with ⟨hy, hrest⟩
    unfold insertByScoreDesc
    by_cases hlt : x.1 < y.1
    · rw [if_pos hlt]
      refine List.sorted_cons.mpr ⟨?_, ih hrest⟩
      intro z hz
      rcases (insertByScoreDesc_perm x rest).mem_iff.mp hz with hz2
      rcases List.mem_cons.mp hz2 with rfl | hz3
      · exact le_of_lt hlt
      · exact hy z hz3
    · rw [if_neg hlt]
      refine List.sorted_cons.mpr ⟨?_, h⟩
      intro z hz
      rcases List.mem_cons.mp hz with rfl | hz2
      · exact le_of_not_lt hlt
      · exact le_trans (hy z hz2) (le_of_not_lt hlt)

theorem sortByScoreDesc_sorted (l : List (ℚ × VectorMatch)) :
    (sortByScoreDesc l).Sorted (fun a b => b.1 ≤ a.1) := by
  induction l with
  | nil => exact List.sorted_nil
  | cons x rest ih => exact insertByScoreDesc_sorted x ih

/-- C8: in grounded mode the namespace query results are merged keyed by
chunk id keeping the highest score seen for each id (every merged entry
stores one of the matches for its id, with that match's score, maximal
among all flattened matches with the same id; every incoming chunk id gets
exactly one entry — the merged keys are pairwise distinct); the output of
`mergeTopMatches` is sorted descending by score, truncated to at most
`topK` entries drawn from the merged values, and `parseTopK` yields the
default 8 when the configuration is unset. -/
theorem c8_merge_rank (results : List (List VectorMatch)) (topK : Nat) :
    (∀ p ∈ mergedEntries results, p.2.2.chunkId = p.1 ∧ p.2.1 = p.2.2.score ∧
      p.2.2 ∈ results.flatten ∧
      ∀ m ∈ results.flatten, m.chunkId = p.1 → m.score ≤ p.2.1) ∧
    (∀ m ∈ results.flatten, ∃ p ∈ mergedEntries results, p.1 = m.chunkId) ∧
    ((mergedEntries results).map (fun p => p.1)).Nodup ∧
    ((mergeTopMatches results topK).map (fun e => e.2.chunkId)).Nodup ∧
    (mergeTopMatches results topK).Sorted (fun a b => b.1 ≤ a.1) ∧
    (mergeTopMatches results topK).length ≤ topK ∧
    (∀ e ∈ mergeTopMatches results topK, e ∈ (mergedEntries results).map (fun p => p.2)) ∧
    parseTopK none = 8 := by
  obtain ⟨hnd, hent, hcov⟩ := mergedEntries_inv results
  have hperm := sortByScoreDesc_perm ((mergedEntries results).map (fun p => p.2))
  refine ⟨hent, hcov, hnd, ?_, ?_, ?_, ?_, rfl⟩
  · have hkeys : ((mergedEntries results).map (fun p => p.2)).map (fun e => e.2.chunkId) =
        (mergedEntries results).map (fun p => p.1) := by
      rw [List.map_map]
      apply List.map_congr_left
      intro p hp
      exact (hent p hp).1
    have hnd2 : (((mergedEntries results).map (fun p => p.2)).map
        (fun e => e.2.chunkId)).Nodup := by
      rw [hkeys]; exact hnd
    have hnd3 : ((sortByScoreDesc ((mergedEntries results).map (fun p => p.2))).map
        (fun e => e.2.chunkId)).Nodup :=
      ((hperm.map (fun e => e.2.chunkId)).nodup_iff).mpr hnd2
    exact hnd3.sublist (List.Sublist.map _ (List.take_sublist _ _))
  · exact List.Pairwise.sublist (List.take_sublist _ _) (sortByScoreDesc_sorted _)
  · unfold mergeTopMatches
    rw [List.length_take]
    exact min_le_left _ _
  · intro e he
    have he2 := List.mem_of_mem_take he
    exact hperm.mem_iff.mp he2

/-- C8, witness: the same chunk id returned by the public query with score
2/5 and the private query with score 9/10 merges to a single entry with
score 9/10, and the output is sorted. -/
theorem c8_merge_rank_witness :
    mergeTopMatches
        [[⟨"c", "f", "d", "Docs", "n.txt", 1, 2, Visibility.public, "", 2/5⟩],
          [⟨"c", "f", "d", "Docs", "n.txt", 1, 2, Visibility.«private», "B", 9/10⟩]] 8 =
      [(9/10, ⟨"c", "f", "d", "Docs", "n.txt", 1, 2, Visibility.«private», "B", 9/10⟩)] ∧
    (mergeTopMatches
        [[⟨"c", "f", "d", "Docs", "n.txt", 1, 2, Visibility.public, "", 2/5⟩],
          [⟨"c", "f", "d", "Docs", "n.txt", 1, 2, Visibility.«private», "B", 9/10⟩]] 8).Sorted
      (fun a b => b.1 ≤ a.1) :=
  ⟨by norm_num [mergeTopMatches, mergedEntries, mergeStep, sortByScoreDesc,
      insertByScoreDesc], (c8_merge_rank
    [[⟨"c", "f", "d", "Docs", "n.txt", 1, 2, Visibility.public, "", 2/5⟩],
      [⟨"c", "f", "d", "Docs", "n.txt", 1, 2, Visibility.«private», "B", 9/10⟩]] 8).2.2.2.2.1⟩

theorem dataArray_arr (items : List JSVal) : dataArray (.arr items) = none := rfl

theorem vectorsArray_arr (items : List JSVal) : vectorsArray (.arr items) = none := rfl

theorem normalizeEmbeddings_data {v : JSVal} {ds : List JSVal}
    (hda : dataArray v = some ds) :
    normalizeEmbeddings v = .ok (ds.map (fun d => getField d ("embedding"))) := by
  simp [normalizeEmbeddings, hda]

theorem normalizeEmbeddings_listOfLists (x : JSVal) (xs : List JSVal)
    (hx : isArr x = true) :
    normalizeEmbeddings (.arr (x :: xs)) = .ok ((x :: xs).map some) := by
  simp [normalizeEmbeddings, dataArray_arr, hx]

theorem normalizeEmbeddings_flat (x : JSVal) (xs : List JSVal)
    (hx : isArr x = false) (hn : isNum x = true) :
    normalizeEmbeddings (.arr (x :: xs)) = .ok [some (.arr (x :: xs))] := by
  simp [normalizeEmbeddings, dataArray_arr, hx, hn]

theorem normalizeEmbeddings_vectors {v : JSVal} {vs : List JSVal}
    (hda : dataArray v = none) (hva : vectorsArray v = some vs) :
    normalizeEmbeddings v = .ok (vs.map some) := by
  cases v with
  | arr items =>
    rw [vectorsArray_arr] at hva
    exact absurd hva (by simp)
  | num q => simp [normalizeEmbeddings, hda, vectorsFallback, hva]
  | str s => simp [normalizeEmbeddings, hda, vectorsFallback, hva]
  | bool b => simp [normalizeEmbeddings, hda, vectorsFallback, hva]
  | obj fields => simp [normalizeEmbeddings, hda, vectorsFallback, hva]

theorem normalizeEmbeddings_ok_iff (v : JSVal) :
    (∃ out, normalizeEmbeddings v = .ok out) ↔
      (isDataShape v = true ∨ isListOfListsShape v = true ∨ isFlatListShape v = true ∨
        isVectorsShape v = true) := by
  constructor
  · rintro ⟨out, hout⟩
    cases hda : dataArray v with
    | some ds => left; simp [isDataShape, hda]
    | none =>
      cases v with
      | arr items =>
        cases items with
        | nil =>
          exfalso
          simp [normalizeEmbeddings, dataArray_arr, vectorsFallback, vectorsArray_arr] at hout
        | cons x xs =>
          by_cases hx : isArr x = true
          · right; left; simp [isListOfListsShape, hx]
          · by_cases hn : isNum x = true
            · right; right; left; simp [isFlatListShape, hn]
            · exfalso
              simp only [Bool.not_eq_true] at hx hn
              simp [normalizeEmbeddings, dataArray_arr, hx, hn, vectorsFallback,
                vectorsArray_arr] at hout
      | num q =>
        cases hva : vectorsArray (JSVal.num q) with
        | some vs => right; right; right; simp [isVectorsShape, hva]
        | none => exfalso; simp [normalizeEmbeddings, hda, vectorsFallback, hva] at hout
      | str s =>
        cases hva : vectorsArray (JSVal.str s) with
        | some vs => right; right; right; simp [isVectorsShape, hva]
        | none => exfalso; simp [normalizeEmbeddings, hda, vectorsFallback, hva] at hout
      | bool b =>
        cases hva : vectorsArray (JSVal.bool b) with
        | some vs => right; right; right; simp [isVectorsShape, hva]
        | none => exfalso; simp [normalizeEmbeddings, hda, vectorsFallback, hva] at hout
      | obj fields =>
        cases hva : vectorsArray (JSVal.obj fields) with
        | some vs => right; right; right; simp [isVectorsShape, hva]
        | none => exfalso; simp [normalizeEmbeddings, hda, vectorsFallback, hva] at hout
  · intro h
    rcases h with h | h | h | h
    · rcases Option.isSome_iff_exists.mp (by simpa [isDataShape] using h) with ⟨ds, hds⟩
      exact ⟨_, normalizeEmbeddings_data hds⟩
    · rcases v with _ | _ | _ | items | _ <;> simp [isListOfListsShape] at h
      rcases items with _ | ⟨x, xs⟩
      · simp at h
      · exact ⟨_, normalizeEmbeddings_listOfLists x xs h⟩
    · rcases v with _ | _ | _ | items | _ <;> simp [isFlatListShape] at h
      rcases items with _ | ⟨x, xs⟩
      · simp at h
      · have hx : isArr x = false := by
          cases x <;> simp [isArr, isNum] at h ⊢
        exact ⟨_, normalizeEmbeddings_flat x xs hx h⟩
    · rcases Option.isSome_iff_exists.mp (by simpa [isVectorsShape] using h) with ⟨vs, hvs⟩
      cases hda : dataArray v with
      | some ds => exact ⟨_, normalizeEmbeddings_data hda⟩
      | none => exact ⟨_, normalizeEmbeddings_vectors hda hvs⟩

theorem normalizeEmbeddings_error (v : JSVal)
    (h1 : isDataShape v = false) (h2 : isListOfListsShape v = false)
    (h3 : isFlatListShape v = false) (h4 : isVectorsShape v = false) :
    normalizeEmbeddings v = .error ("Embedding response not in a known format") := by
  cases hres : normalizeEmbeddings v with
  | error msg =>
    have : msg = "Embedding response not in a known format" := by
      cases hda : dataArray v with
      | some ds => rw [normalizeEmbeddings_data hda] at hres; exact absurd hres (by simp)
      | none =>
        cases v with
        | arr items =>
          cases items with
          | nil =>
            simp [normalizeEmbeddings, dataArray_arr, vectorsFallback, vectorsArray_arr] at hres
            exact hres.symm
          | cons x xs =>
            have hx : isArr x = false := by simpa [isListOfListsShape] using h2
            have hn : isNum x = false := by simpa [isFlatListShape] using h3
            simp [normalizeEmbeddings, dataArray_arr, hx, hn, vectorsFallback,
              vectorsArray_arr] at hres
            exact hres.symm
        | num q =>
          have hva : vectorsArray (JSVal.num q) = none := by
            cases hv2 : vectorsArray (JSVal.num q) with
            | none => rfl
            | some vs => rw [isVectorsShape, hv2] at h4; simp at h4
          simp [normalizeEmbeddings, hda, vectorsFallback, hva] at hres
          exact hres.symm
        | str s =>
          have hva : vectorsArray (JSVal.str s) = none := by
            cases hv2 : vectorsArray (JSVal.str s) with
            | none => rfl
            | some vs => rw [isVectorsShape, hv2] at h4; simp at h4
          simp [normalizeEmbeddings, hda, vectorsFallback, hva] at hres
          exact hres.symm
        | bool b =>
          have hva : vectorsArray (JSVal.bool b) = none := by
            cases hv2 : vectorsArray (JSVal.bool b) with
            | none => rfl
            | some vs => rw [isVectorsShape, hv2] at h4; simp at h4
          simp [normalizeEmbeddings, hda, vectorsFallback, hva] at hres
          exact hres.symm
        | obj fields =>
          have hva : vectorsArray (JSVal.obj fields) = none := by
            cases hv2 : vectorsArray (JSVal.obj fields) with
            | none => rfl
            | some vs => rw [isVectorsShape, hv2] at h4; simp at h4
          simp [normalizeEmbeddings, hda, vectorsFallback, hva] at hres
          exact hres.symm
    rw [this]
  | ok out =>
    exfalso
    have := (normalizeEmbeddings_ok_iff v).mp ⟨out, hres⟩
    rcases this with h | h | h | h
    · rw [h1] at h; exact absurd h (by simp)
    · rw [h2] at h; exact absurd h (by simp)
    · rw [h3] at h; exact absurd h (by simp)
    · rw [h4] at h; exact absurd h (by simp)

/-- C9: `normalizeEmbeddings` succeeds exactly on the four provider shapes
the specification names — an object carrying a `data` list (mapped to the
elements' `embedding` fields, in order), a raw list whose first element is
a list (returned as-is, in order), a raw flat list whose first element is a
number (one single vector), and a wrapper carrying a `vectors` list
(returned in order) — and throws the explicit format error on every input
matching none of them.  The shape tests are stated at the discrimination
granularity of the source (`Array.isArray(maybe.data)` and so on). -/
theorem c9_embedding_shapes (v : JSVal) :
    ((∃ out, normalizeEmbeddings v = .ok out) ↔
      (isDataShape v = true ∨ isListOfListsShape v = true ∨ isFlatListShape v = true ∨
        isVectorsShape v = true)) ∧
    (∀ ds, dataArray v = some ds →
      normalizeEmbeddings v = .ok (ds.map (fun d => getField d ("embedding")))) ∧
    (∀ x xs, v = .arr (x :: xs) → isArr x = true →
      normalizeEmbeddings v = .ok ((x :: xs).map some)) ∧
    (∀ x xs, v = .arr (x :: xs) → isArr x = false → isNum x = true →
      normalizeEmbeddings v = .ok [some (.arr (x :: xs))]) ∧
    (∀ vs, dataArray v = none → vectorsArray v = some vs →
      normalizeEmbeddings v = .ok (vs.map some)) ∧
    (isDataShape v = false → isListOfListsShape v = false → isFlatListShape v = false →
      isVectorsShape v = false →
      normalizeEmbeddings v = .error ("Embedding response not in a known format")) := by
  refine ⟨normalizeEmbeddings_ok_iff v, ?_, ?_, ?_, ?_, ?_⟩
  · intro ds hds
    exact normalizeEmbeddings_data hds
  · rintro x xs rfl hx
    exact normalizeEmbeddings_listOfLists x xs hx
  · rintro x xs rfl hx hn
    exact normalizeEmbeddings_flat x xs hx hn
  · intro vs hda hva
    exact normalizeEmbeddings_vectors hda hva
  · intro h1 h2 h3 h4
    exact normalizeEmbeddings_error v h1 h2 h3 h4

/-- C9, witness: a concrete `data`-shaped response is accepted with its
vector extracted, and a bare boolean is rejected with the explicit error. -/
theorem c9_embedding_shapes_witness :
    normalizeEmbeddings
        (JSVal.obj [(("data"),
          JSVal.arr [JSVal.obj [(("embedding"), JSVal.arr [JSVal.num 1])]])]) =
      .ok [some (JSVal.arr [JSVal.num 1])] ∧
    normalizeEmbeddings (JSVal.bool true) =
      .error ("Embedding response not in a known format") :=
  ⟨by
    have h := (c9_embedding_shapes
      (JSVal.obj [(("data"),
        JSVal.arr [JSVal.obj [(("embedding"), JSVal.arr [JSVal.num 1])]])])).2.1
      [JSVal.obj [(("embedding"), JSVal.arr [JSVal.num 1])]] rfl
    rw [h]
    rfl,
  (c9_embedding_shapes (JSVal.bool true)).2.2.2.2.2 rfl rfl rfl rfl⟩

/-- C3, amended: in freeform mode (no `/lookup` prefix) the handler
returns the citations of the parsed model result unchanged — the
normalized citations the model produced, empty only when the model
supplies none or parsing falls back — and persists a chat record.  The
handler does not force the citations array to be empty. -/
theorem c3_amended (userId question : String) (embedRaw : Except String JSVal)
    (jsonParse : String → Option JSVal) (llmObjects : List JSVal) (llmStrings : List String)
    (topKEnv : Option String) (store : VectorStore) (db : List ChunkCtx)
    (chatId : String) (messages : List ChatRecord)
    (hne : ¬(jsTrim question = "")) (hfree : lookupMatch (jsTrim question) = none) :
    handleChat userId question embedRaw jsonParse llmObjects llmStrings topKEnv store db
        chatId messages =
      .ok ⟨⟨chatId, (callResponsesParse jsonParse llmObjects llmStrings).answer,
          (callResponsesParse jsonParse llmObjects llmStrings).citations, []⟩,
        messages ++ [⟨chatId, userId, jsTrim question,
          (callResponsesParse jsonParse llmObjects llmStrings).answer,
          (callResponsesParse jsonParse llmObjects llmStrings).citations⟩], true⟩ := by
  unfold handleChat
  rw [if_neg hne, hfree]

/-- C3, counterexample: a freeform question (`"hello"`, no grounded-mode
prefix) whose model output carries one well-formed citation produces a
response whose citations array is that non-empty list — the handler passes
the model's citations through instead of enforcing an empty array. -/
theorem c3_counterexample :
    handleChat ("u1") ("hello") (Except.ok (JSVal.arr [])) (fun _ => none)
        [JSVal.obj [(("answer"), JSVal.str "Hi"),
          (("citations"), JSVal.arr [JSVal.obj [(("folder"), JSVal.str "F"),
            (("file"), JSVal.str "f.txt"),
            (("lines"), JSVal.arr [JSVal.num 1, JSVal.num 2])]])]] []
        none (VectorStore.v2 []) [] ("id1") [] =
      .ok ⟨⟨"id1", "Hi", [JSVal.obj [(("folder"), JSVal.str "F"),
          (("file"), JSVal.str "f.txt"),
          (("lines"), JSVal.arr [JSVal.num 1, JSVal.num 2])]], []⟩,
        [⟨"id1", "u1", "hello", "Hi", [JSVal.obj [(("folder"), JSVal.str "F"),
          (("file"), JSVal.str "f.txt"),
          (("lines"), JSVal.arr [JSVal.num 1, JSVal.num 2])]]⟩], true⟩ ∧
    ¬([JSVal.obj [(("folder"), JSVal.str "F"), (("file"), JSVal.str "f.txt"),
        (("lines"), JSVal.arr [JSVal.num 1, JSVal.num 2])]] = ([] : List JSVal)) :=
  ⟨rfl, fun h => List.cons_ne_nil _ _ h⟩

/-- C3, amended, witness at a concrete freeform exchange. -/
theorem c3_amended_witness :
    handleChat ("u1") ("hello") (Except.ok (JSVal.arr [])) (fun _ => none)
        [JSVal.obj [(("answer"), JSVal.str "Hi"), (("citations"), JSVal.arr [])]] []
        none (VectorStore.v2 []) [] ("id1") [] =
      .ok ⟨⟨"id1", (callResponsesParse (fun _ => none)
            [JSVal.obj [(("answer"), JSVal.str "Hi"), (("citations"), JSVal.arr [])]] []).answer,
          (callResponsesParse (fun _ => none)
            [JSVal.obj [(("answer"), JSVal.str "Hi"), (("citations"), JSVal.arr [])]] []).citations,
          []⟩,
        [] ++ [⟨"id1", "u1", jsTrim ("hello"),
          (callResponsesParse (fun _ => none)
            [JSVal.obj [(("answer"), JSVal.str "Hi"), (("citations"), JSVal.arr [])]] []).answer,
          (callResponsesParse (fun _ => none)
            [JSVal.obj [(("answer"), JSVal.str "Hi"), (("citations"), JSVal.arr [])]] []).citations⟩],
        true⟩ :=
  c3_amended ("u1") ("hello") (Except.ok (JSVal.arr [])) (fun _ => none)
    [JSVal.obj [(("answer"), JSVal.str "Hi"), (("citations"), JSVal.arr [])]] []
    none (VectorStore.v2 []) [] ("id1") [] (by decide) rfl

/-- C10: in grounded mode (under the hypotheses that the question carries
the `/lookup` prefix with a non-empty query and the embedding step
succeeds), both short-circuit paths — empty merged match list, and no
matched chunk id resolving to a stored chunk row — return the fixed
"nothing relevant" response with empty citations and sources while leaving
the messages store untouched; and on every path that does persist a chat
record, the language model was invoked. -/
theorem c10_frame (userId question : String) (embedRaw : Except String JSVal)
    (jsonParse : String → Option JSVal) (llmObjects : List JSVal) (llmStrings : List String)
    (topKEnv : Option String) (store : VectorStore) (db : List ChunkCtx)
    (chatId : String) (messages : List ChatRecord) (capture : String) (embedding : JSVal)
    (hne : ¬(jsTrim question = "")) (hlk : lookupMatch (jsTrim question) = some capture)
    (hcap : ¬(jsTrim capture = "")) (hemb : embedQuestion embedRaw = .ok embedding) :
    (groundedTopMatches store userId embedding (parseTopK topKEnv) = [] →
      handleChat userId question embedRaw jsonParse llmObjects llmStrings topKEnv store db
          chatId messages =
        .ok ⟨⟨chatId, nothingRelevantAnswer, [], []⟩, messages, false⟩) ∧
    (contextsOf (groundedTopMatches store userId embedding (parseTopK topKEnv))
        (getChunksByIds db
          ((groundedTopMatches store userId embedding (parseTopK topKEnv)).map
            (fun e => e.2.chunkId))) = [] →
      handleChat userId question embedRaw jsonParse llmObjects llmStrings topKEnv store db
          chatId messages =
        .ok ⟨⟨chatId, nothingRelevantAnswer, [], []⟩, messages, false⟩) ∧
    (∀ out, handleChat userId question embedRaw jsonParse llmObjects llmStrings topKEnv
        store db chatId messages = .ok out →
      ¬(out.messages = messages) → out.llmCalled = true) := by
  have hcommon : handleChat userId question embedRaw jsonParse llmObjects llmStrings topKEnv
      store db chatId messages =
      (if (groundedTopMatches store userId embedding (parseTopK topKEnv)).map
          (fun e => e.2.chunkId) = [] then
        .ok ⟨⟨chatId, nothingRelevantAnswer, [], []⟩, messages, false⟩
      else if contextsOf (groundedTopMatches store userId embedding (parseTopK topKEnv))
          (getChunksByIds db
            ((groundedTopMatches store userId embedding (parseTopK topKEnv)).map
              (fun e => e.2.chunkId))) = [] then
        .ok ⟨⟨chatId, nothingRelevantAnswer, [], []⟩, messages, false⟩
      else
        .ok ⟨⟨chatId, (callResponsesParse jsonParse llmObjects llmStrings).answer,
            (callResponsesParse jsonParse llmObjects llmStrings).citations,
            contextsOf (groundedTopMatches store userId embedding (parseTopK topKEnv))
              (getChunksByIds db
                ((groundedTopMatches store userId embedding (parseTopK topKEnv)).map
                  (fun e => e.2.chunkId)))⟩,
          messages ++ [⟨chatId, userId, jsTrim question,
            (callResponsesParse jsonParse llmObjects llmStrings).answer,
            (callResponsesParse jsonParse llmObjects llmStrings).citations⟩],
          true⟩) := by
    unfold handleChat
    rw [if_neg hne]
    simp only [hlk]
    rw [if_neg hcap]
    simp only [hemb]
  refine ⟨?_, ?_, ?_⟩
  · intro hempty
    rw [hcommon, hempty]
    simp
  · intro hctx
    rw [hcommon]
    by_cases hids : (groundedTopMatches store userId embedding (parseTopK topKEnv)).map
        (fun e => e.2.chunkId) = []
    · rw [if_pos hids]
    · rw [if_neg hids, if_pos hctx]
  · intro out hout hmsg
    rw [hcommon] at hout
    by_cases hids : (groundedTopMatches store userId embedding (parseTopK topKEnv)).map
        (fun e => e.2.chunkId) = []
    · rw [if_pos hids] at hout
      exfalso
      apply hmsg
      have := Except.ok.inj hout
      rw [← this]
    · rw [if_neg hids] at hout
      by_cases hctx : contextsOf (groundedTopMatches store userId embedding (parseTopK topKEnv))
          (getChunksByIds db
            ((groundedTopMatches store userId embedding (parseTopK topKEnv)).map
              (fun e => e.2.chunkId))) = []
      · rw [if_pos hctx] at hout
        exfalso
        apply hmsg
        have := Except.ok.inj hout
        rw [← this]
      · rw [if_neg hctx] at hout
        have := Except.ok.inj hout
        rw [← this]

/-- C10, witness: a grounded query against an empty index short-circuits
with the fixed answer and no inserted record. -/
theorem c10_frame_witness :
    handleChat ("u1") ("/lookup hi") (Except.ok (JSVal.arr [JSVal.num 1])) (fun _ => none)
        [] [] none (VectorStore.v2 []) [] ("id1") [] =
      .ok ⟨⟨"id1", nothingRelevantAnswer, [], []⟩, [], false⟩ :=
  (c10_frame ("u1") ("/lookup hi") (Except.ok (JSVal.arr [JSVal.num 1])) (fun _ => none)
    [] [] none (VectorStore.v2 []) [] ("id1") [] ("hi") (JSVal.arr [JSVal.num 1])
    (by decide) rfl (by decide) rfl).1 rfl

theorem ingest_mismatch_eq (st : IngestState) (fileId actingUserId : String)
    (chunkSize overlap : Nat) (raw : JSVal) (idGen : Nat → String)
    (file : FileRec) (text : List Char) (chunks : List TextChunk)
    (embeds : List (Option JSVal))
    (hfile : getFileById st.files fileId = some file)
    (hown : file.owner_id = actingUserId)
    (hblob : blobLookup st.blobs file.r2_key = some text)
    (hcs : ¬(chunkSize = 0))
    (hchunks : chunkTextRun text chunkSize overlap = some chunks)
    (hne : ¬(chunks = []))
    (hnorm : normalizeEmbeddings raw = .ok embeds)
    (hmm : ¬(embeds.length = chunks.length)) :
    ingestFileById st fileId actingUserId chunkSize overlap (.ok raw) idGen =
      some (st, .error ⟨500, "Embedding count mismatch: got " ++ toString embeds.length ++
        ", expected " ++ toString chunks.length⟩) := by
  unfold ingestFileById
  simp only [hfile]
  rw [if_neg (not_not_intro hown)]
  simp only [hblob]
  rw [if_neg hcs]
  simp only [hchunks]
  rw [if_neg hne]
  simp only [hnorm]
  rw [if_pos hmm]

/-- C6: when the normalized embedding list's length differs from the chunk
count, `ingestFileById` fails with the fatal 500 count-mismatch error and
returns with the storage state unchanged — nothing is truncated, padded,
deleted or inserted. -/
theorem c6_count_mismatch (st : IngestState) (fileId actingUserId : String)
    (chunkSize overlap : Nat) (raw : JSVal) (idGen : Nat → String)
    (file : FileRec) (text : List Char) (chunks : List TextChunk)
    (embeds : List (Option JSVal))
    (hfile : getFileById st.files fileId = some file)
    (hown : file.owner_id = actingUserId)
    (hblob : blobLookup st.blobs file.r2_key = some text)
    (hcs : ¬(chunkSize = 0))
    (hchunks : chunkTextRun text chunkSize overlap = some chunks)
    (hne : ¬(chunks = []))
    (hnorm : normalizeEmbeddings raw = .ok embeds)
    (hmm : ¬(embeds.length = chunks.length)) :
    ingestFileById st fileId actingUserId chunkSize overlap (.ok raw) idGen =
      some (st, .error ⟨500, "Embedding count mismatch: got " ++ toString embeds.length ++
        ", expected " ++ toString chunks.length⟩) :=
  ingest_mismatch_eq st fileId actingUserId chunkSize overlap raw idGen file text chunks
    embeds hfile hown hblob hcs hchunks hne hnorm hmm

/-- C7: once the file, ownership, blob and chunking steps have passed, a
provider failure (502), a normalization failure (500), or an
embedding/chunk count mismatch each abort `ingestFileById` with an error
and the returned state identical to the input state: the file's existing
chunk rows and vectors are deleted only after the embedding call, its
normalization and the count check have all succeeded. -/
theorem c7_no_delete_before_check (st : IngestState) (fileId actingUserId : String)
    (chunkSize overlap : Nat) (idGen : Nat → String)
    (file : FileRec) (text : List Char) (chunks : List TextChunk)
    (hfile : getFileById st.files fileId = some file)
    (hown : file.owner_id = actingUserId)
    (hblob : blobLookup st.blobs file.r2_key = some text)
    (hcs : ¬(chunkSize = 0))
    (hchunks : chunkTextRun text chunkSize overlap = some chunks)
    (hne : ¬(chunks = [])) :
    (∀ msg, ingestFileById st fileId actingUserId chunkSize overlap (.error msg) idGen =
      some (st, .error ⟨502, msg⟩)) ∧
    (∀ raw msg, normalizeEmbeddings raw = .error msg →
      ingestFileById st fileId actingUserId chunkSize overlap (.ok raw) idGen =
        some (st, .error ⟨500, "Failed to parse embeddings: " ++ msg⟩)) ∧
    (∀ raw embeds, normalizeEmbeddings raw = .ok embeds →
      ¬(embeds.length = chunks.length) →
      ∃ e, ingestFileById st fileId actingUserId chunkSize overlap (.ok raw) idGen =
        some (st, .error e)) := by
  refine ⟨?_, ?_, ?_⟩
  · intro msg
    unfold ingestFileById
    simp only [hfile]
    rw [if_neg (not_not_intro hown)]
    simp only [hblob]
    rw [if_neg hcs]
    simp only [hchunks]
    rw [if_neg hne]
  · intro raw msg hnorm
    unfold ingestFileById
    simp only [hfile]
    rw [if_neg (not_not_intro hown)]
    simp only [hblob]
    rw [if_neg hcs]
    simp only [hchunks]
    rw [if_neg hne]
    simp only [hnorm]
  · intro raw embeds hnorm hmm
    exact ⟨_, ingest_mismatch_eq st fileId actingUserId chunkSize overlap raw idGen file text
      chunks embeds hfile hown hblob hcs hchunks hne hnorm hmm⟩

/-- C6, witness: two chunks but a single returned vector fail ingestion
with the 500 count-mismatch error, leaving the state untouched. -/
theorem c6_count_mismatch_witness :
    ingestFileById
        ⟨[⟨"f1", "d1", "u1", Visibility.«private», "a.txt", "Docs", "key1", "uploading"⟩],
          [(("key1"), ['a', 'b'])], [], VectorStore.v2 []⟩
        ("f1") ("u1") 1 0 (Except.ok (JSVal.arr [JSVal.arr [JSVal.num 1]]))
        (fun _ => "cid") =
      some (⟨[⟨"f1", "d1", "u1", Visibility.«private», "a.txt", "Docs", "key1", "uploading"⟩],
          [(("key1"), ['a', 'b'])], [], VectorStore.v2 []⟩,
        .error ⟨500, "Embedding count mismatch: got 1, expected 2"⟩) := by
  have h := c6_count_mismatch
    ⟨[⟨"f1", "d1", "u1", Visibility.«private», "a.txt", "Docs", "key1", "uploading"⟩],
      [(("key1"), ['a', 'b'])], [], VectorStore.v2 []⟩
    ("f1") ("u1") 1 0 (JSVal.arr [JSVal.arr [JSVal.num 1]]) (fun _ => "cid")
    ⟨"f1", "d1", "u1", Visibility.«private», "a.txt", "Docs", "key1", "uploading"⟩
    (['a', 'b']) ([⟨['a'], 1, 1, 0⟩, ⟨['b'], 1, 1, 1⟩])
    ([some (JSVal.arr [JSVal.num 1])])
    rfl rfl rfl (by decide) (by decide) (by decide) rfl (by decide)
  have hs : ("Embedding count mismatch: got " ++
      toString ([some (JSVal.arr [JSVal.num 1])] : List (Option JSVal)).length ++
      ", expected " ++
      toString ([⟨['a'], 1, 1, 0⟩, ⟨['b'], 1, 1, 1⟩] : List TextChunk).length : String) =
      "Embedding count mismatch: got 1, expected 2" := by decide
  rw [h, hs]

/-- C7, witness: a failed embedding call aborts ingestion with a 502 and
the state unchanged. -/
theorem c7_no_delete_before_check_witness :
    ingestFileById
        ⟨[⟨"f1", "d1", "u1", Visibility.«private», "a.txt", "Docs", "key1", "uploading"⟩],
          [(("key1"), ['a', 'b'])], [], VectorStore.v2 []⟩
        ("f1") ("u1") 1 0 (Except.error ("boom")) (fun _ => "cid") =
      some (⟨[⟨"f1", "d1", "u1", Visibility.«private», "a.txt", "Docs", "key1", "uploading"⟩],
          [(("key1"), ['a', 'b'])], [], VectorStore.v2 []⟩,
        .error ⟨502, "boom"⟩) :=
  (c7_no_delete_before_check
    ⟨[⟨"f1", "d1", "u1", Visibility.«private», "a.txt", "Docs", "key1", "uploading"⟩],
      [(("key1"), ['a', 'b'])], [], VectorStore.v2 []⟩
    ("f1") ("u1") 1 0 (fun _ => "cid")
    ⟨"f1", "d1", "u1", Visibility.«private», "a.txt", "Docs", "key1", "uploading"⟩
    (['a', 'b']) ([⟨['a'], 1, 1, 0⟩, ⟨['b'], 1, 1, 1⟩])
    rfl rfl rfl (by decide) (by decide) (by decide)).1 ("boom")
